import Mathlib

/-!
# Verification of the jest-roblox result-rewriting and aggregation engine

This file gives a shallow embedding, in Lean 4, of the core logic of the
`jestrbx` CLI (worker fan-out/merge in `cli.js` / `runJestRoblox`, and the
`ResultRewriter` class of `cache.js` / `rewriter.js`), together with proofs
of the behavioural properties claimed for it.

Modelling conventions:
* JavaScript numbers that hold test counts are modelled as `Nat`.
* JavaScript `Map`s and plain objects are modelled as association lists in
  insertion order.
* The filesystem is modelled as an association list from path to the list of
  lines of a readable file; an absent key is a missing file
  (`fs.existsSync` false), the case `readLines` fails soft on.  An existing
  file the process may not read passes `fs.existsSync` and makes
  `fs.readFileSync` throw `EACCES`; that raising path is modelled by the
  `Except`-valued `readLinesE`/`findSourceLineE`/`buildCodeFrameE`, which
  take the set of permission-denied paths as an explicit parameter.
* Node's `path` module is modelled for POSIX (`path.sep = "/"`,
  `path.isAbsolute p ↔ p` starts with `"/"`), the platform the tool runs on
  in CI; backslashes are plain characters there, which is exactly why the
  source normalises them by hand.
* `chalk` colour wrappers are modelled as the identity: with colour support
  disabled (non-TTY output, `chalk.level = 0`) every `chalk` style returns
  its argument unchanged, and no claim here concerns escape codes.
-/

namespace JestRbx

/-! ## Worker aggregation (`runJestRoblox`, cli.js)

Model of the per-shard results blob parsed out of one Luau execution, and of
the merge loop `for (const result of workerResults) { ... }`. -/

/-- Snapshot statistics carried in a shard's results
(`result.results.snapshot`).  Numeric fields are read with `|| 0`, boolean
fields with `|| false`, list fields are concatenated; absent list fields are
skipped, which we model with `Option`. -/
structure SnapshotStats where
  added : Nat
  fileDeleted : Bool
  matched : Nat
  unchecked : Nat
  uncheckedKeys : List String
  unmatched : Nat
  updated : Nat
  filesAdded : Nat
  filesRemoved : Nat
  filesRemovedList : List String
  filesUnmatched : Nat
  filesUpdated : Nat
  didUpdate : Bool
  total : Nat
  failure : Bool
  uncheckedKeysByFile : List String
  deriving Repr, DecidableEq

/-- The zero-initialised `combinedSnapshot` accumulator of the merge loop. -/
def SnapshotStats.init : SnapshotStats :=
  { added := 0, fileDeleted := false, matched := 0, unchecked := 0,
    uncheckedKeys := [], unmatched := 0, updated := 0, filesAdded := 0,
    filesRemoved := 0, filesRemovedList := [], filesUnmatched := 0,
    filesUpdated := 0, didUpdate := false, total := 0, failure := false,
    uncheckedKeysByFile := [] }

/-- One shard's `result.results` record.  Count fields are modelled as `Nat`
(the merge loop's `|| 0` guard only normalises an absent field to `0`, which
the `Nat` model absorbs); `testResults` entries are opaque suite records of
type `α`. -/
structure ShardResults (α : Type) where
  numPassedTests : Nat
  numFailedTests : Nat
  numPendingTests : Nat
  numTodoTests : Nat
  numTotalTests : Nat
  numPassedTestSuites : Nat
  numFailedTestSuites : Nat
  numPendingTestSuites : Nat
  numRuntimeErrorTestSuites : Nat
  numTotalTestSuites : Nat
  success : Bool
  testResults : List α
  snapshot : Option SnapshotStats
  deriving Repr

/-- One worker's parsed execution output.  `results` is `none` when the
parsed blob has no `results` field (the loop body is guarded by
`if (result.results)`); `globalConfig` of type `γ` is optional
(`if (!globalConfig && result.globalConfig)`). -/
structure WorkerResult (α γ : Type) where
  results : Option (ShardResults α)
  globalConfig : Option γ
  deriving Repr

/-- The mutable accumulator variables of the combine loop in
`runJestRoblox` (`combinedTestResults`, the ten `num*` counters,
`allSuccess`, `globalConfig`, `combinedSnapshot`). -/
structure MergeAcc (α γ : Type) where
  combinedTestResults : List α
  numPassedTests : Nat
  numFailedTests : Nat
  numPendingTests : Nat
  numTodoTests : Nat
  numTotalTests : Nat
  numPassedTestSuites : Nat
  numFailedTestSuites : Nat
  numPendingTestSuites : Nat
  numRuntimeErrorTestSuites : Nat
  numTotalTestSuites : Nat
  allSuccess : Bool
  globalConfig : Option γ
  combinedSnapshot : SnapshotStats
  deriving Repr

/-- Initial values of all accumulator variables. -/
def MergeAcc.init (α γ : Type) : MergeAcc α γ :=
  { combinedTestResults := [], numPassedTests := 0, numFailedTests := 0,
    numPendingTests := 0, numTodoTests := 0, numTotalTests := 0,
    numPassedTestSuites := 0, numFailedTestSuites := 0,
    numPendingTestSuites := 0, numRuntimeErrorTestSuites := 0,
    numTotalTestSuites := 0, allSuccess := true, globalConfig := none,
    combinedSnapshot := SnapshotStats.init }

/-- The snapshot-aggregation block
`if (result.results.snapshot) { const snap = ...; ... }`. -/
def mergeSnapshot (acc : SnapshotStats) : Option SnapshotStats → SnapshotStats
  | none => acc
  | some snap =>
    { acc with
      added := acc.added + snap.added
      matched := acc.matched + snap.matched
      unchecked := acc.unchecked + snap.unchecked
      unmatched := acc.unmatched + snap.unmatched
      updated := acc.updated + snap.updated
      filesAdded := acc.filesAdded + snap.filesAdded
      filesRemoved := acc.filesRemoved + snap.filesRemoved
      filesUnmatched := acc.filesUnmatched + snap.filesUnmatched
      filesUpdated := acc.filesUpdated + snap.filesUpdated
      total := acc.total + snap.total
      didUpdate := acc.didUpdate || snap.didUpdate
      failure := acc.failure || snap.failure
      filesRemovedList := acc.filesRemovedList ++ snap.filesRemovedList
      uncheckedKeysByFile := acc.uncheckedKeysByFile ++ snap.uncheckedKeysByFile
      uncheckedKeys := acc.uncheckedKeys ++ snap.uncheckedKeys }

/-- One iteration of `for (const result of workerResults)`. -/
def mergeStep (acc : MergeAcc α γ) (result : WorkerResult α γ) : MergeAcc α γ :=
  let acc1 :=
    match result.results with
    | none => acc
    | some rs =>
      { acc with
        numPassedTests := acc.numPassedTests + rs.numPassedTests
        numFailedTests := acc.numFailedTests + rs.numFailedTests
        numPendingTests := acc.numPendingTests + rs.numPendingTests
        numTodoTests := acc.numTodoTests + rs.numTodoTests
        numTotalTests := acc.numTotalTests + rs.numTotalTests
        numPassedTestSuites := acc.numPassedTestSuites + rs.numPassedTestSuites
        numFailedTestSuites := acc.numFailedTestSuites + rs.numFailedTestSuites
        numPendingTestSuites :=
          acc.numPendingTestSuites + rs.numPendingTestSuites
        numRuntimeErrorTestSuites :=
          acc.numRuntimeErrorTestSuites + rs.numRuntimeErrorTestSuites
        numTotalTestSuites := acc.numTotalTestSuites + rs.numTotalTestSuites
        allSuccess := acc.allSuccess && rs.success
        combinedTestResults := acc.combinedTestResults ++ rs.testResults
        combinedSnapshot := mergeSnapshot acc.combinedSnapshot rs.snapshot }
  -- "Use globalConfig from first worker"
  match acc1.globalConfig, result.globalConfig with
  | none, some g => { acc1 with globalConfig := some g }
  | _, _ => acc1

/-- The whole combine loop: fold `mergeStep` over the worker results in
worker-index order, starting from the zero-initialised accumulators. -/
def mergeWorkerResults (workerResults : List (WorkerResult α γ)) : MergeAcc α γ :=
  workerResults.foldl mergeStep (MergeAcc.init α γ)

/-- The merged `parsedResults.results` object built from the final
accumulator values after the combine loop. -/
def combinedParsedResults (workerResults : List (WorkerResult α γ)) :
    ShardResults α :=
  let acc := mergeWorkerResults workerResults
  { numPassedTests := acc.numPassedTests
    numFailedTests := acc.numFailedTests
    numPendingTests := acc.numPendingTests
    numTodoTests := acc.numTodoTests
    numTotalTests := acc.numTotalTests
    numPassedTestSuites := acc.numPassedTestSuites
    numFailedTestSuites := acc.numFailedTestSuites
    numPendingTestSuites := acc.numPendingTestSuites
    numRuntimeErrorTestSuites := acc.numRuntimeErrorTestSuites
    numTotalTestSuites := acc.numTotalTestSuites
    success := acc.allSuccess
    testResults := acc.combinedTestResults
    snapshot := some acc.combinedSnapshot }

/-- A shard's contribution to a numeric counter: the field value when the
worker's blob has a `results` record, `0` otherwise. -/
def shardCount (f : ShardResults α → Nat) (w : WorkerResult α γ) : Nat :=
  match w.results with
  | some rs => f rs
  | none => 0

/-- A shard's contribution to `allSuccess`: its `success` flag when present,
the neutral `true` otherwise. -/
def shardSuccess (w : WorkerResult α γ) : Bool :=
  match w.results with
  | some rs => rs.success
  | none => true

/-- A shard's contribution to `combinedTestResults`. -/
def shardSuites (w : WorkerResult α γ) : List α :=
  match w.results with
  | some rs => rs.testResults
  | none => []

/-! ## Worker partitioning (`runJestRoblox`, cli.js)

`suitesPerWorker = Math.ceil(testSuites.length / maxWorkers)` and the shard
construction loop with its `if (workerSuites.length === 0) break;`. -/

/-- The shard-building loop: worker `i` receives
`testSuites.slice(i * suitesPerWorker, min((i+1) * suitesPerWorker, n))`;
the loop breaks at the first empty slice.  `fuel` counts the remaining loop
iterations (`maxWorkers - i`). -/
def buildWorkersAux (suites : List α) (spw : Nat) : Nat → Nat → List (List α)
  | 0, _ => []
  | fuel + 1, i =>
    let workerSuites := (suites.drop (i * spw)).take spw
    if workerSuites.isEmpty then []
    else workerSuites :: buildWorkersAux suites spw fuel (i + 1)

/-- Partition of the discovered suite list across `maxWorkers` workers:
`suitesPerWorker = Math.ceil(length / maxWorkers)` (exact on naturals for
`maxWorkers > 0` since JS computes it in floats on small integers), then the
slicing loop. -/
def buildWorkers (suites : List α) (maxWorkers : Nat) : List (List α) :=
  let suitesPerWorker := (suites.length + maxWorkers - 1) / maxWorkers
  buildWorkersAux suites suitesPerWorker maxWorkers 0

/-! ## JavaScript string primitives

Helper functions mirroring the JavaScript string operations used by
`ResultRewriter` (`cache.js`).  Strings are manipulated through their
character lists; all inputs in this code base are ASCII. -/

/-- JavaScript's `\s` character class (ASCII part: space, `\t`, `\n`, `\r`,
vertical tab, form feed).  The Unicode spaces also in `\s` never occur in
the paths and code lines this tool manipulates. -/
def jsIsSpace (c : Char) : Bool :=
  c = ' ' || c = '\t' || c = '\n' || c = '\r' || c = '\x0b' || c = '\x0c'

/-- Model of `String.prototype.trim()`: strip leading and trailing whitespace. -/
def jsTrim (s : String) : String :=
  ⟨((s.data.dropWhile jsIsSpace).reverse.dropWhile jsIsSpace).reverse⟩

/-- Model of `str.replace(/\s+/g, "")`: removing every whitespace run is removing
every whitespace character. -/
def stripSpaces (s : String) : String :=
  ⟨s.data.filter (fun c => !jsIsSpace c)⟩

/-- Is `sub` an infix of `l` (some suffix of `l` starts with `sub`)? -/
def listInfixOf (sub : List Char) : List Char → Bool
  | [] => sub.isPrefixOf []
  | c :: t => sub.isPrefixOf (c :: t) || listInfixOf sub t

/-- Model of `String.prototype.includes`: substring containment. -/
def jsIncludes (s sub : String) : Bool :=
  listInfixOf sub.data s.data

/-- Model of `String.prototype.indexOf` on character lists: index of the first
occurrence of `sub` at or after the accumulated index. -/
def jsIndexOfFrom (sub : List Char) : List Char → Nat → Option Nat
  | l, i =>
    if sub.isPrefixOf l then some i
    else
      match l with
      | [] => none
      | _ :: t => jsIndexOfFrom sub t (i + 1)

/-- Model of `String.prototype.split` with a non-empty literal separator:
left-to-right non-overlapping scan; `fuel` bounds the steps
(`l.length + 1` suffices, every step consumes a character or the
separator). -/
def jsSplitAux (sep : List Char) : Nat → List Char → List Char →
    List (List Char)
  | 0, l, acc => [acc ++ l]
  | fuel + 1, l, acc =>
    if sep.isPrefixOf l && !sep.isEmpty && !l.isEmpty then
      acc :: jsSplitAux sep fuel (l.drop sep.length) []
    else
      match l with
      | [] => [acc]
      | c :: t => jsSplitAux sep fuel t (acc ++ [c])

/-- Model of `s.split(sep)` on character lists. -/
def jsSplit (s sep : List Char) : List (List Char) :=
  jsSplitAux sep (s.length + 1) s []

/-- Model of `value.split(pat).join(rep)` — the global literal-string replacement
idiom used by `rewriteStackString` (`pat` is always a non-empty regex
match). -/
def jsReplaceAll (s pat rep : String) : String :=
  ⟨List.intercalate rep.data (jsSplit s.data pat.data)⟩

/-- Model of `str.replace(/x/g, "y")` for single characters. -/
def replaceChar (s : String) (a b : Char) : String :=
  ⟨s.data.map (fun c => if c = a then b else c)⟩

/-- Model of `String.prototype.padStart(n, c)`. -/
def jsPadStart (s : String) (n : Nat) (c : Char) : String :=
  ⟨List.replicate (n - s.data.length) c ++ s.data⟩

/-- JavaScript's `\w` character class `[A-Za-z0-9_]`. -/
def isJsWordChar (c : Char) : Bool :=
  c.isAlphanum || c = '_'

/-- Digit-string to number (`Number(lineStr)` on a `\d+` match). -/
def digitsToNat (ds : List Char) : Nat :=
  ds.foldl (fun n c => n * 10 + (c.toNat - '0'.toNat)) 0

/-! ## Node `path` model (POSIX)

The tool runs the Node `path` module on POSIX, where `path.sep = "/"` and a
path is absolute iff it starts with `"/"`; backslashes are ordinary
characters there (the source normalises them by hand where needed). -/

/-- Split a path on `"/"`. -/
def pathSplit (p : String) : List String :=
  (jsSplit p.data ['/']).map (fun l => ⟨l⟩)

/-- Normalise a segment list: drop empty and `"."` segments, cancel `".."`
against a preceding real segment; at the root, `".."` vanishes for absolute
paths and accumulates for relative ones.  The accumulator is kept reversed. -/
def normSegs (segs : List String) (isAbs : Bool) : List String :=
  (segs.foldl (fun acc seg =>
    if seg = "" || seg = "." then acc
    else if seg = ".." then
      match acc with
      | [] => if isAbs then [] else [".."]
      | h :: t => if h = ".." then ".." :: acc else t
    else seg :: acc) []).reverse

/-- Model of `String.prototype.startsWith` on character data. -/
def strStartsWith (s pre : String) : Bool :=
  pre.data.isPrefixOf s.data

/-- Model of `String.prototype.endsWith` on character data. -/
def jsEndsWith (s suffix : String) : Bool :=
  suffix.data.isSuffixOf s.data

/-- Model of `path.isAbsolute` (POSIX): the path starts with `"/"`. -/
def jsIsAbsolute (p : String) : Bool :=
  match p.data with
  | '/' :: _ => true
  | _ => false

/-- Model of `path.resolve(p)` against the process working directory `cwd` (which is
always an absolute path). -/
def jsResolve (cwd p : String) : String :=
  let base := if jsIsAbsolute p then "" else cwd
  "/" ++ String.intercalate "/" (normSegs (pathSplit (base ++ "/" ++ p)) true)

/-- Model of `path.join(a, b)` (POSIX): concatenate with a separator and normalise,
preserving whether `a` was absolute. -/
def jsJoin (a b : String) : String :=
  let isAbs := jsIsAbsolute a
  let core := String.intercalate "/" (normSegs (pathSplit (a ++ "/" ++ b)) isAbs)
  if isAbs then "/" ++ core
  else if core = "" then "." else core

/-- Drop the longest common prefix of two segment lists. -/
def dropCommonPrefix : List String → List String → List String × List String
  | a :: as_, b :: bs =>
    if a = b then dropCommonPrefix as_ bs else (a :: as_, b :: bs)
  | as_, bs => (as_, bs)

/-- Model of `path.relative(src, dst)` (POSIX): resolve both against `cwd`, strip the
common prefix, climb with `".."` and descend into the remainder. -/
def jsRelative (cwd src dst : String) : String :=
  let f := normSegs (pathSplit (if jsIsAbsolute src then src else cwd ++ "/" ++ src)) true
  let t := normSegs (pathSplit (if jsIsAbsolute dst then dst else cwd ++ "/" ++ dst)) true
  let (f', t') := dropCommonPrefix f t
  String.intercalate "/" (List.replicate f'.length ".." ++ t')

/-! ## The `ResultRewriter` state (`cache.js`)

The constructor's products: the module-path map (datamodel address →
`{luauPath, absoluteLuauPath, sourcePath}`), the reverse `luauPathMap`
keyed by normalised luau path, the project root, and the lazily-populated
file-line cache — which we replace by direct reads of an immutable
filesystem snapshot, observationally equivalent for a pure single run. -/

/-- One `modulePathMap` entry: `{ luauPath, absoluteLuauPath, sourcePath }`.
`absoluteLuauPath` is `none` for entries built without the constructor's
absolutisation (the code falls back to `path.resolve(luauPath)`),
`sourcePath` is `none` when no original source file was found. -/
structure ModuleEntry where
  luauPath : String
  absoluteLuauPath : Option String
  sourcePath : Option String
  deriving Repr, DecidableEq

/-- The rewriter state: the two lookup maps (as insertion-ordered
association lists, like a JS `Map`), the project root (`rojoProject.root`,
which the constructor also stores as `this.projectRoot`), the process
working directory, and the readable-file snapshot (path ↦ lines; an absent
path is a missing/unreadable file). -/
structure ResultRewriter where
  modulePathMap : List (String × ModuleEntry)
  luauPathMap : List (String × ModuleEntry)
  projectRoot : String
  cwd : String
  fs : List (String × List String)
  deriving Repr

/-- Model of `readLines` over missing or readable files: `[]` for a falsy
path or a missing file (`fs.existsSync` false), otherwise the file split on
line breaks.  The `fileCache` memoisation is dropped: on an immutable
filesystem it never changes a result.  An existing permission-denied file
makes `fs.readFileSync` throw instead of returning; that path is modelled
by `readLinesE` below, which refines this function on files that do not
throw. -/
def ResultRewriter.readLines (r : ResultRewriter) (filePath : String) :
    List String :=
  if filePath = "" then []
  else
    match r.fs.lookup filePath with
    | some lines => lines
    | none => []

/-- Model of `findSourceLine`: content-based heuristic match of a compiled line in
the original source (exact trimmed match, then whitespace-collapsed
substring match, then fall back to the input line number).  A JS index of
`-1` (`luauLineNumber = 0`) reads `undefined`, modelled by the `= 0`
guard. -/
def ResultRewriter.findSourceLine (r : ResultRewriter)
    (luauPath sourcePath : String) (luauLineNumber : Nat) : Nat :=
  let luauLines := r.readLines luauPath
  let sourceLines := r.readLines sourcePath
  if luauLines.isEmpty || sourceLines.isEmpty then luauLineNumber
  else
    let target := jsTrim (if luauLineNumber = 0 then ""
      else (luauLines.get? (luauLineNumber - 1)).getD "")
    if target = "" then luauLineNumber
    else
      let normalizedTarget := stripSpaces target
      match sourceLines.findIdx? (fun line => jsTrim line = target) with
      | some exactIndex => exactIndex + 1
      | none =>
        match sourceLines.findIdx?
            (fun line => jsIncludes (stripSpaces line) normalizedTarget) with
        | some looseIndex => looseIndex + 1
        | none => luauLineNumber

/-- Does the suffix start with `expect`, optional whitespace, then `(` —
the tail of the `/\bexpect\s*\(/` pattern after its word boundary? -/
def matchesExpectAt (s : List Char) : Bool :=
  if s.take 6 = "expect".data then
    match (s.drop 6).dropWhile jsIsSpace with
    | '(' :: _ => true
    | _ => false
  else false

/-- Model of `lineText.search(/\bexpect\s*\(/)`: first position with a word boundary
(start of string or non-word predecessor) where the pattern matches. -/
def searchExpect : List Char → Option Char → Nat → Option Nat
  | [], _, _ => none
  | c :: rest, prev, i =>
    let boundary := match prev with
      | none => true
      | some p => !isJsWordChar p
    if boundary && matchesExpectAt (c :: rest) then some i
    else searchExpect rest (some c) (i + 1)

/-- One attempt of the matcher pattern `/\.\s*([A-Za-z_$][\w$]*)\s*(?=\()/`
at the head of `s`: on success, the consumed text (dot, whitespace, name,
trailing whitespace — the lookahead `(` is not consumed), the captured
name, and the unconsumed remainder. -/
def tryMatcherAt (s : List Char) : Option (List Char × List Char × List Char) :=
  match s with
  | '.' :: r1 =>
    let ws := r1.takeWhile jsIsSpace
    let r2 := r1.dropWhile jsIsSpace
    match r2 with
    | c :: r3 =>
      if c.isAlpha || c = '_' || c = '$' then
        let nameRest := r3.takeWhile (fun d => isJsWordChar d || d = '$')
        let r4 := r3.dropWhile (fun d => isJsWordChar d || d = '$')
        let ws2 := r4.takeWhile jsIsSpace
        let r5 := r4.dropWhile jsIsSpace
        match r5 with
        | '(' :: _ =>
          some ('.' :: (ws ++ (c :: nameRest) ++ ws2), c :: nameRest, r5)
        | _ => none
      else none
    | [] => none
  | _ => none

/-- The `while ((match = matcherRegex.exec(afterExpect)) !== null)` loop:
scan left to right, remember the last match as `(index, text, name)`.
`fuel` bounds the number of steps (each step consumes at least one
character, so `s.length` suffices). -/
def lastMatcherAux (fuel : Nat) (s : List Char) (i : Nat)
    (best : Option (Nat × List Char × List Char)) :
    Option (Nat × List Char × List Char) :=
  match fuel, s with
  | 0, _ => best
  | _, [] => best
  | fuel + 1, c :: tail =>
    match tryMatcherAt (c :: tail) with
    | some (txt, name, rest) =>
      lastMatcherAux fuel rest (i + txt.length) (some (i, txt, name))
    | none => lastMatcherAux fuel tail (i + 1) best

/-- Model of `findExpectationColumn`: 1-based column of the last matcher name after
an `expect(` on the line, else the column of `expect`, else `1`. -/
def findExpectationColumn (lineText : String) : Nat :=
  if lineText = "" then 1
  else
    match searchExpect lineText.data none 0 with
    | none => 1
    | some expectIndex =>
      let afterExpect := lineText.data.drop expectIndex
      match lastMatcherAux afterExpect.length afterExpect 0 none with
      | none => expectIndex + 1
      | some (mIndex, mText, mName) =>
        let matcherNameOffset := mIndex + (jsIndexOfFrom mName mText 0).getD 0
        expectIndex + matcherNameOffset + 1

/-- Model of `formatPath`: make a path relative (to the project root when that keeps
it inside, else to the working directory), with forward slashes. -/
def ResultRewriter.formatPath (r : ResultRewriter) (filePath : String) :
    String :=
  let baseDir := if r.projectRoot = "" then r.cwd else r.projectRoot
  let rel0 := jsRelative r.cwd baseDir filePath
  let rel1 := if rel0 = "" || strStartsWith rel0 ".." then
    jsRelative r.cwd r.cwd filePath else rel0
  let rel2 := if rel1 = "" then filePath else rel1
  replaceChar rel2 '\\' '/'

/-- The staged entry lookup shared by `mapDatamodelFrame` and
`datamodelPathToSourcePath`: raw key, slash-normalised key, reverse luau
map, then project-root-relative reverse lookup. -/
def ResultRewriter.lookupEntry (r : ResultRewriter) (p : String) :
    Option ModuleEntry :=
  let normalizedPath := replaceChar p '\\' '/'
  match r.modulePathMap.lookup p with
  | some e => some e
  | none =>
    match r.modulePathMap.lookup normalizedPath with
    | some e => some e
    | none =>
      match r.luauPathMap.lookup normalizedPath with
      | some e => some e
      | none =>
        if r.projectRoot = "" then none
        else
          let candidateAbsolute := if jsIsAbsolute p then jsResolve r.cwd p
            else jsJoin r.projectRoot normalizedPath
          let relativeToRoot :=
            replaceChar (jsRelative r.cwd r.projectRoot candidateAbsolute)
              '\\' '/'
          r.luauPathMap.lookup relativeToRoot

/-- A resolved stack frame `{ line, column, file }`. -/
structure MappedFrame where
  line : Nat
  column : Nat
  file : String
  deriving Repr, DecidableEq

/-- Model of `mapDatamodelFrame`: resolve a datamodel path through the maps, map the
line content-wise into the source, and locate the expectation column on the
mapped line. -/
def ResultRewriter.mapDatamodelFrame (r : ResultRewriter)
    (datamodelPath : String) (lineNumber : Nat) : Option MappedFrame :=
  match r.lookupEntry datamodelPath with
  | none => none
  | some entry =>
    let absoluteLuauPath :=
      entry.absoluteLuauPath.getD (jsResolve r.cwd entry.luauPath)
    let mappedLine := r.findSourceLine absoluteLuauPath
      (entry.sourcePath.getD absoluteLuauPath) lineNumber
    let sourceForColumn := entry.sourcePath.getD absoluteLuauPath
    let sourceLines := r.readLines sourceForColumn
    let lineText := if mappedLine = 0 then ""
      else (sourceLines.get? (mappedLine - 1)).getD ""
    some { line := mappedLine, column := findExpectationColumn lineText,
           file := sourceForColumn }

/-! ## The stack-frame token pattern

`rewriteStackString` scans with
`/((?:[\w@.\/\\-]*[\/.\\][\w@.\/\\-]+)):(\d+)(?::(\d+))?/g`.  The path
class is `A = [\w@.\/\\-]`, the separator class `S = [\/.\\] ⊆ A`, and `:`
is not in `A`; hence the first group always covers a whole maximal `A`-run
(JS backtracking cannot make it end earlier, as every shorter end would
require `:` at an `A`-position), and a run matches iff it has at least two
characters with a separator before its last character, followed by `:` and
digits. -/

/-- The `A = [\w@.\/\\-]` class. -/
def isStackWordChar (c : Char) : Bool :=
  isJsWordChar c || c = '@' || c = '.' || c = '/' || c = '\\' || c = '-'

/-- The `S = [\/.\\]` separator class. -/
def isStackSep (c : Char) : Bool :=
  c = '/' || c = '.' || c = '\\'

/-- One token match: the full matched text, the path group, the line
digits, and the optional column digits. -/
structure StackToken where
  full : List Char
  filePart : List Char
  lineDigits : List Char
  colDigits : Option (List Char)
  deriving Repr, DecidableEq

/-- Attempt the token pattern at the start of `s`; on success also return
the unconsumed remainder (the regex's new `lastIndex`). -/
def tryStackMatchAt (s : List Char) : Option (StackToken × List Char) :=
  let run := s.takeWhile isStackWordChar
  let rest1 := s.dropWhile isStackWordChar
  if (run.dropLast).any isStackSep then
    match rest1 with
    | ':' :: r2 =>
      let digs := r2.takeWhile Char.isDigit
      if digs.isEmpty then none
      else
        let r3 := r2.dropWhile Char.isDigit
        match r3 with
        | ':' :: r4 =>
          let cds := r4.takeWhile Char.isDigit
          if cds.isEmpty then
            some (⟨run ++ ':' :: digs, run, digs, none⟩, r3)
          else
            some (⟨run ++ ':' :: digs ++ ':' :: cds, run, digs, some cds⟩,
              r4.dropWhile Char.isDigit)
        | _ => some (⟨run ++ ':' :: digs, run, digs, none⟩, r3)
    | _ => none
  else none

/-- The `while ((match = pattern.exec(value)) !== null)` scan: try each
start position left to right; after a match continue at its end.  `fuel`
bounds the steps (`s.length` suffices, every step consumes ≥ 1 char). -/
def scanStackAux (fuel : Nat) (s : List Char) : List StackToken :=
  match fuel, s with
  | 0, _ => []
  | _, [] => []
  | fuel + 1, c :: tail =>
    match tryStackMatchAt (c :: tail) with
    | some (tok, rest) => tok :: scanStackAux fuel rest
    | none => scanStackAux fuel tail

/-- All token matches of the stack pattern in a string, in order. -/
def scanStack (s : List Char) : List StackToken :=
  scanStackAux s.length s

/-- Model of `rewriteStackString` (`cache.js`): for each not-yet-processed match,
resolve its path group through `mapDatamodelFrame`; on success replace
every occurrence of the matched text with
`resolvedPath:mappedLine:mappedColumn` (path formatted relative, or
absolute under `{ absolutePaths: true }`). -/
def ResultRewriter.rewriteStackString (r : ResultRewriter) (value : String)
    (absolutePaths : Bool := false) : String :=
  if value = "" then value
  else
    (scanStack value.data |>.foldl
      (fun (st : List String × String) tok =>
        let processed := st.1
        let rewritten := st.2
        let fullMatch : String := ⟨tok.full⟩
        if processed.contains fullMatch then (processed, rewritten)
        else
          match r.mapDatamodelFrame ⟨tok.filePart⟩ (digitsToNat tok.lineDigits) with
          | some mapped =>
            let filePath := if absolutePaths then jsResolve r.cwd mapped.file
              else r.formatPath mapped.file
            (fullMatch :: processed,
              jsReplaceAll rewritten fullMatch
                (filePath ++ ":" ++ toString mapped.line ++ ":"
                  ++ toString mapped.column))
          | none => (fullMatch :: processed, rewritten))
      ([], value)).2

/-- Drop the last `n` characters (`String.prototype` slicing on these
ASCII paths). -/
def strDropRight (s : String) (n : Nat) : String :=
  ⟨s.data.take (s.data.length - n)⟩

/-- Model of `testFilePath.replace(/\.(lua|luau)$/, "")`: the anchored alternation
removes a `.luau` suffix in full (the shorter alternative fails the `$`)
and otherwise a `.lua` suffix. -/
def stripLuaExt (p : String) : String :=
  if jsEndsWith p ".luau" then strDropRight p 5
  else if jsEndsWith p ".lua" then strDropRight p 4
  else p

/-- The `matchingPath` of `datamodelPathToSourcePath`: strip the Lua
extension and turn every slash of either kind into a dot. -/
def suffixKey (p : String) : String :=
  replaceChar (replaceChar (stripLuaExt p) '\\' '.') '/' '.'

/-- The values (`sourcePath ?? luauPath`) of every map entry whose address
ends with the normalised matching path, in map insertion order — the
`matches` array of `datamodelPathToSourcePath`. -/
def ResultRewriter.suffixMatchesOf (r : ResultRewriter) (p : String) :
    List String :=
  (r.modulePathMap.filter (fun e => jsEndsWith e.1 (suffixKey p))).map
    (fun e => e.2.sourcePath.getD e.2.luauPath)

/-- The suffix-matching fallback of `datamodelPathToSourcePath`: use the
unique match, else join the raw path under the project root. -/
def ResultRewriter.suffixFallback (r : ResultRewriter) (testFilePath : String) :
    String :=
  match r.suffixMatchesOf testFilePath with
  | [m] => m
  | _ => jsJoin r.projectRoot testFilePath

/-- Model of `datamodelPathToSourcePath` (`cache.js`): staged exact lookup first
(used only when it produces a truthy `sourcePath`), then the suffix
fallback. -/
def ResultRewriter.datamodelPathToSourcePath (r : ResultRewriter)
    (testFilePath : String) : String :=
  if testFilePath = "" then testFilePath
  else
    match r.lookupEntry testFilePath with
    | some entry =>
      match entry.sourcePath with
      | some sp => if sp = "" then r.suffixFallback testFilePath else sp
      | none => r.suffixFallback testFilePath
    | none => r.suffixFallback testFilePath

/-! ## Code frames (`buildCodeFrame`, `cache.js`)

`chalk` styles are the identity with colours disabled, so `highlightCode`'s
regex replacement — whose callback returns the chalk-styled match itself in
every branch — is the identity on the text. -/

/-- Model of `chalk.bold.red` with colours disabled. -/
def chalkBoldRed (s : String) : String := s

/-- Model of `chalk.grey` with colours disabled. -/
def chalkGrey (s : String) : String := s

/-- Model of `chalk.dim` with colours disabled. -/
def chalkDim (s : String) : String := s

/-- Model of `highlightCode`: a global regex replacement whose callback returns the
match (chalk-styled; the identity with colours disabled) in every branch,
hence the identity on the text. -/
def highlightCode (text : String) : String := text

/-- Model of `line.replace(/\t/g, "    ")` — the tab normalisation applied to every
cached line before rendering. -/
def replaceTabs (s : String) : String :=
  ⟨(s.data.map (fun c => if c = '\t' then "    ".data else [c])).flatten⟩

/-- The loop body of `buildCodeFrame` rendering line `i`: the marker-or-
space gutter, the right-aligned line number, and the (identity-)highlighted
line content; the first rendered line is bright, the rest dimmed. -/
def codeFrameRender (lines : List String) (line start digitWidth i : Nat) :
    String :=
  let lineNum := jsPadStart (toString i) digitWidth ' '
  let gutter := (if i = line then chalkBoldRed ">" else " ") ++ " "
    ++ chalkGrey (lineNum ++ " |")
  let rawContent := (lines.get? (i - 1)).getD ""
  let content := "    " ++ gutter ++ " " ++ highlightCode rawContent
  if i = start then content else chalkDim content

/-- The `frame` array built by `buildCodeFrame`'s loop
`for (let i = start; i <= end; i++)`, as a list of rendered lines;
`none` when the file is unreadable (`!lines.length`). -/
def ResultRewriter.buildCodeFrameLines (r : ResultRewriter) (absPath : String)
    (line : Nat) (context : Nat) : Option (List String) :=
  let lines0 := r.readLines absPath
  if lines0.isEmpty then none
  else
    let lines := lines0.map replaceTabs
    let start := max 1 (line - context)
    let stop := min lines.length (line + context + 1)
    let digitWidth := (toString stop).data.length
    some ((List.range' start (stop + 1 - start)).map
      (codeFrameRender lines line start digitWidth))

/-- Model of `buildCodeFrame`: the rendered frame joined with newlines; `column` is
accepted and unused, exactly as in the source. -/
def ResultRewriter.buildCodeFrame (r : ResultRewriter) (absPath : String)
    (line : Nat) (_column : Nat := 1) (context : Nat := 2) : Option String :=
  (r.buildCodeFrameLines absPath line context).map
    (String.intercalate "\n")

/-! ## The raising read path

`readLines` guards only with `fs.existsSync`.  A missing path fails that
check and yields `[]`; but an existing file the process may not read passes
`fs.existsSync` (which tests existence, not readability) and the subsequent
`fs.readFileSync` throws `EACCES`, which propagates uncaught out of
`findSourceLine` and `buildCodeFrame`.  The `Except`-valued functions below
model exactly this: `denied` is the set of existing permission-denied
paths (disjoint from the readable snapshot `fs`). -/

/-- Model of `readLines` over the full filesystem: `[]` for a falsy path or a
missing file, the raised `EACCES` for an existing permission-denied file,
the lines otherwise.  On paths that do not throw this is exactly
`readLines`. -/
def ResultRewriter.readLinesE (r : ResultRewriter) (denied : List String)
    (filePath : String) : Except String (List String) :=
  if filePath = "" then .ok []
  else if denied.contains filePath then .error "EACCES"
  else
    .ok (match r.fs.lookup filePath with
      | some lines => lines
      | none => [])

/-- Model of `findSourceLine` with the raising read path: the two `readLines`
calls happen in source order (compiled file first) and an exception from
either propagates; when neither throws, the computation is exactly the
pure `findSourceLine`. -/
def ResultRewriter.findSourceLineE (r : ResultRewriter) (denied : List String)
    (luauPath sourcePath : String) (luauLineNumber : Nat) :
    Except String Nat :=
  match r.readLinesE denied luauPath with
  | .error e => .error e
  | .ok _ =>
    match r.readLinesE denied sourcePath with
    | .error e => .error e
    | .ok _ => .ok (r.findSourceLine luauPath sourcePath luauLineNumber)

/-- Model of `buildCodeFrame` with the raising read path: an exception from
the single `readLines` call propagates; otherwise the computation is
exactly the pure `buildCodeFrame`. -/
def ResultRewriter.buildCodeFrameE (r : ResultRewriter) (denied : List String)
    (absPath : String) (line : Nat) (column : Nat := 1) (context : Nat := 2) :
    Except String (Option String) :=
  match r.readLinesE denied absPath with
  | .error e => .error e
  | .ok _ => .ok (r.buildCodeFrame absPath line column context)

/-! ## Coverage rewriting (`rewriteCoverageData`, `cache.js`) -/

/-- One coverage-map value: its embedded `path` property (`none` when
absent) and an opaque representative of its remaining fields. -/
structure CoverageEntry where
  pathField : Option String
  payload : Nat
  deriving Repr, DecidableEq

/-- JS object property assignment `obj[k] = v` on an insertion-ordered
association list: overwrite in place if the key exists, else append. -/
def jsObjSet (m : List (String × β)) (k : String) (v : β) :
    List (String × β) :=
  match m with
  | [] => [(k, v)]
  | (k', v') :: rest =>
    if k' = k then (k, v) :: rest else (k', v') :: jsObjSet rest k v

/-- Model of `if (rewrittenCoverage.path) rewrittenCoverage.path = finalPath`: the
truthiness test skips an absent or empty `path`. -/
def setPathTruthy (c : CoverageEntry) (newPath : String) : CoverageEntry :=
  match c.pathField with
  | some p => if p = "" then c else { c with pathField := some newPath }
  | none => c

/-- Model of `path.resolve(entry?.luauPath ?? datamodelPath)` after dot-normalising
the slash-separated coverage key. -/
def ResultRewriter.coverageFinalPath (r : ResultRewriter)
    (datamodelPath : String) : String :=
  let normalizedPath := replaceChar datamodelPath '/' '.'
  jsResolve r.cwd
    (((r.modulePathMap.lookup normalizedPath).map ModuleEntry.luauPath).getD
      datamodelPath)

/-- One iteration of the `rewriteCoverageData` loop: copy the `"total"`
entry under its own key, re-key any other entry under its resolved
absolute path, substituting that path into a shallow clone's `path`
property. -/
def ResultRewriter.coverageStep (r : ResultRewriter)
    (rewritten : List (String × CoverageEntry)) (kv : String × CoverageEntry) :
    List (String × CoverageEntry) :=
  if kv.1 = "total" then jsObjSet rewritten kv.1 kv.2
  else
    let finalPath := r.coverageFinalPath kv.1
    jsObjSet rewritten finalPath (setPathTruthy kv.2 finalPath)

/-- The key under which an input entry ends up, and its stored value: the
`"total"` entry is kept as is, every other entry is re-keyed under its
resolved absolute path with that path substituted into its `path`
property. -/
def ResultRewriter.coverageTransform (r : ResultRewriter)
    (kv : String × CoverageEntry) : String × CoverageEntry :=
  if kv.1 = "total" then kv
  else (r.coverageFinalPath kv.1, setPathTruthy kv.2 (r.coverageFinalPath kv.1))

/-- Model of `rewriteCoverageData`: fold the per-entry step over the coverage map in
insertion order, starting from the fresh empty object. -/
def ResultRewriter.rewriteCoverageData (r : ResultRewriter)
    (coverageData : List (String × CoverageEntry)) :
    List (String × CoverageEntry) :=
  coverageData.foldl r.coverageStep []

/-! ## Heap model of `rewriteCoverageData` (for the mutation claim)

To state that the function never mutates its argument, coverage objects
live in an explicit store (`List CoverageEntry` indexed by allocation
order) and the input map holds references.  `{ ...coverage }` allocates a
fresh cell; the conditional `path` assignment then updates that fresh cell
in place. -/

/-- One iteration of the heap-model loop: the `"total"` branch copies the
reference; any other entry allocates a shallow clone (`{ ...coverage }`),
then updates the clone's `path` in place when truthy, and stores the fresh
reference. -/
def ResultRewriter.coverageStepH (r : ResultRewriter)
    (st : List CoverageEntry × List (String × Nat)) (kv : String × Nat) :
    List CoverageEntry × List (String × Nat) :=
  if kv.1 = "total" then (st.1, jsObjSet st.2 kv.1 kv.2)
  else
    let finalPath := r.coverageFinalPath kv.1
    let cloned := (st.1.get? kv.2).getD ⟨none, 0⟩
    let newRef := st.1.length
    let store1 := st.1 ++ [cloned]
    let store2 := match cloned.pathField with
      | some p => if p = "" then store1
        else store1.set newRef { cloned with pathField := some finalPath }
      | none => store1
    (store2, jsObjSet st.2 finalPath newRef)

/-- Heap version of `rewriteCoverageData`: threads the store through the
loop, allocating a shallow clone per non-`"total"` entry before mutating
its `path`, and building the fresh `rewritten` object. -/
def ResultRewriter.rewriteCoverageDataH (r : ResultRewriter)
    (store : List CoverageEntry) (coverageData : List (String × Nat)) :
    List CoverageEntry × List (String × Nat) :=
  coverageData.foldl r.coverageStepH (store, [])

/-- The `target` local of `findSourceLine`: the trimmed text of compiled
line `n` (1-based; a JS out-of-range read yields `""`). -/
def compiledTarget (r : ResultRewriter) (luauPath : String) (n : Nat) :
    String :=
  jsTrim (if n = 0 then "" else ((r.readLines luauPath).get? (n - 1)).getD "")

/-! ## Concrete fixtures used by witnesses -/

/-- Sample shard result: 2 passed tests, `success = true`. -/
def sampleShard1 : ShardResults Nat :=
  { numPassedTests := 2, numFailedTests := 0, numPendingTests := 0,
    numTodoTests := 0, numTotalTests := 2, numPassedTestSuites := 1,
    numFailedTestSuites := 0, numPendingTestSuites := 0,
    numRuntimeErrorTestSuites := 0, numTotalTestSuites := 1,
    success := true, testResults := [10, 11], snapshot := none }

/-- Sample shard result: 1 passed and 1 failed test, `success = false`. -/
def sampleShard2 : ShardResults Nat :=
  { numPassedTests := 1, numFailedTests := 1, numPendingTests := 0,
    numTodoTests := 0, numTotalTests := 2, numPassedTestSuites := 0,
    numFailedTestSuites := 1, numPendingTestSuites := 0,
    numRuntimeErrorTestSuites := 0, numTotalTestSuites := 1,
    success := false, testResults := [20], snapshot := none }

/-- A two-worker run built from the two sample shards. -/
def sampleWorkers : List (WorkerResult Nat Unit) :=
  [{ results := some sampleShard1, globalConfig := some () },
   { results := some sampleShard2, globalConfig := none }]

/-- A rewriter over an empty filesystem (no file is readable), with the
C3 scenario's module map entry
`{address: "A.B.test", compiledPath: "out/test.luau", sourcePath: "src/test.ts"}`. -/
def scenarioRewriter : ResultRewriter :=
  { modulePathMap := [("A.B.test",
      { luauPath := "out/test.luau", absoluteLuauPath := none,
        sourcePath := some "src/test.ts" })],
    luauPathMap := [], projectRoot := "/proj", cwd := "/proj", fs := [] }

/-- A rewriter whose filesystem holds a compiled file and its source, the
source shifted by a leading blank line. -/
def matchRewriter : ResultRewriter :=
  { modulePathMap := [], luauPathMap := [], projectRoot := "/proj",
    cwd := "/proj",
    fs := [("/proj/out/a.luau", ["local x = 1", "return x"]),
           ("/proj/src/a.ts", ["", "local x = 1", "return x"])] }

/-- A rewriter whose filesystem holds one ten-line file `/proj/f.ts`. -/
def frameRewriter : ResultRewriter :=
  { modulePathMap := [], luauPathMap := [], projectRoot := "/proj",
    cwd := "/proj",
    fs := [("/proj/f.ts",
      ["l1", "l2", "l3", "l4", "l5", "l6", "l7", "l8", "l9", "l10"])] }

/-! ## Theorems for the claims -/

/-- The function `List.findIdx?` finds exactly the first index satisfying
the predicate. -/
lemma findIdx?_eq_some_of_first {β : Type} (p : β → Bool) :
    ∀ (l : List β) (j : Nat) (x : β), l.get? j = some x → p x = true →
      (∀ k y, k < j → l.get? k = some y → p y = false) →
      l.findIdx? p = some j
  | [], j, x, hj, _, _ => by simp at hj
  | a :: t, 0, x, hj, hx, _ => by
    simp only [List.get?_cons_zero, Option.some.injEq] at hj
    subst hj
    simp [List.findIdx?_cons, hx]
  | a :: t, j + 1, x, hj, hx, hmin => by
    have ha : p a = false := hmin 0 a (Nat.succ_pos j) rfl
    simp only [List.get?_cons_succ] at hj
    have := findIdx?_eq_some_of_first p t j x hj hx
      (fun k y hk hky => hmin (k + 1) y (by omega) (by simpa using hky))
    simp [List.findIdx?_cons, ha, this]

/-- The function `List.findIdx?` is `none` when no element satisfies the
predicate. -/
lemma findIdx?_eq_none_of_all {β : Type} (p : β → Bool) :
    ∀ (l : List β), (∀ y ∈ l, p y = false) → l.findIdx? p = none
  | [], _ => rfl
  | a :: t, h => by
    have ha : p a = false := h a (List.mem_cons_self a t)
    have := findIdx?_eq_none_of_all p t (fun y hy => h y (List.mem_cons_of_mem a hy))
    simp [List.findIdx?_cons, ha, this]

/-- Reading a missing path (`fs.existsSync` false) yields `[]`. -/
lemma readLines_eq_nil_of_missing (r : ResultRewriter) (p : String)
    (h : r.fs.lookup p = none) : r.readLines p = [] := by
  unfold ResultRewriter.readLines
  by_cases hp : p = ""
  · simp [hp]
  · simp [hp, h]

/-- On a path that is neither empty nor permission-denied, the raising read
agrees with the pure `readLines`. -/
lemma readLinesE_eq_ok (r : ResultRewriter) (denied : List String)
    (p : String) (h : denied.contains p = false) :
    r.readLinesE denied p = .ok (r.readLines p) := by
  unfold ResultRewriter.readLinesE ResultRewriter.readLines
  by_cases hp : p = ""
  · simp [hp]
  · have h' : p ∉ denied := by simpa using h
    simp [hp, h']

/-- On a non-empty permission-denied path, the raising read throws. -/
lemma readLinesE_eq_error (r : ResultRewriter) (denied : List String)
    (p : String) (hp : p ≠ "") (h : denied.contains p = true) :
    r.readLinesE denied p = .error "EACCES" := by
  unfold ResultRewriter.readLinesE
  have h' : p ∈ denied := by simpa using h
  simp [hp, h']

/-- When either input file is missing, `findSourceLine` falls back to the
input line number. -/
lemma findSourceLine_missing_input (r : ResultRewriter)
    (luauPath sourcePath : String) (n : Nat)
    (hread : r.fs.lookup luauPath = none ∨ r.fs.lookup sourcePath = none) :
    r.findSourceLine luauPath sourcePath n = n := by
  unfold ResultRewriter.findSourceLine
  rcases hread with h | h
  · rw [readLines_eq_nil_of_missing r _ h]
    simp
  · rw [readLines_eq_nil_of_missing r _ h]
    simp

/-- When the target file is missing, `buildCodeFrame` yields no frame. -/
lemma buildCodeFrame_missing_input (r : ResultRewriter) (absPath : String)
    (line col ctx : Nat) (habs : r.fs.lookup absPath = none) :
    r.buildCodeFrame absPath line col ctx = none := by
  unfold ResultRewriter.buildCodeFrame ResultRewriter.buildCodeFrameLines
  rw [readLines_eq_nil_of_missing r _ habs]
  simp

/-- Counterexample to C8: for an existing permission-denied file —
unreadable, yet passing the `fs.existsSync` guard — `fs.readFileSync`'s
`EACCES` propagates out of `findSourceLine` and `buildCodeFrame`: at a
concrete denied compiled path, `findSourceLine` raises instead of
returning the input line number `7`, and at a concrete denied target
path, `buildCodeFrame` raises instead of returning no frame. -/
theorem denied_file_raises_counterexample :
    scenarioRewriter.findSourceLineE ["/proj/out/a.luau"]
        "/proj/out/a.luau" "/proj/src/a.ts" 7 = .error "EACCES"
    ∧ scenarioRewriter.findSourceLineE ["/proj/out/a.luau"]
        "/proj/out/a.luau" "/proj/src/a.ts" 7 ≠ .ok 7
    ∧ scenarioRewriter.buildCodeFrameE ["/proj/f.ts"] "/proj/f.ts" 5 1 2
        = .error "EACCES"
    ∧ scenarioRewriter.buildCodeFrameE ["/proj/f.ts"] "/proj/f.ts" 5 1 2
        ≠ .ok none := by
  have h1 : scenarioRewriter.findSourceLineE ["/proj/out/a.luau"]
      "/proj/out/a.luau" "/proj/src/a.ts" 7 = .error "EACCES" := rfl
  have h3 : scenarioRewriter.buildCodeFrameE ["/proj/f.ts"] "/proj/f.ts" 5 1 2
      = .error "EACCES" := rfl
  refine ⟨h1, ?_, h3, ?_⟩
  · rw [h1]
    simp
  · rw [h3]
    simp

/-- C8 (amended): the non-fatal degradation holds exactly for missing
files — when neither path is an existing permission-denied file and either
input file is missing (`fs.existsSync` false), `findSourceLine` returns
the original compiled line number without raising, and `buildCodeFrame`
returns no frame without raising; for an existing permission-denied file
(compiled, source, or code-frame target), the `fs.readFileSync` error
propagates out of the operation instead. -/
theorem missing_degrades_denied_raises (r : ResultRewriter)
    (denied : List String) (luauPath sourcePath absPath : String)
    (n line col ctx : Nat) :
    (denied.contains luauPath = false → denied.contains sourcePath = false →
      (r.fs.lookup luauPath = none ∨ r.fs.lookup sourcePath = none) →
      r.findSourceLineE denied luauPath sourcePath n = .ok n)
    ∧ (denied.contains absPath = false → r.fs.lookup absPath = none →
      r.buildCodeFrameE denied absPath line col ctx = .ok none)
    ∧ (luauPath ≠ "" → denied.contains luauPath = true →
      r.findSourceLineE denied luauPath sourcePath n = .error "EACCES")
    ∧ (sourcePath ≠ "" → denied.contains sourcePath = true →
      denied.contains luauPath = false →
      r.findSourceLineE denied luauPath sourcePath n = .error "EACCES")
    ∧ (absPath ≠ "" → denied.contains absPath = true →
      r.buildCodeFrameE denied absPath line col ctx = .error "EACCES") := by
  refine ⟨?_, ?_, ?_, ?_, ?_⟩
  · intro hL hS hmiss
    unfold ResultRewriter.findSourceLineE
    rw [readLinesE_eq_ok r denied luauPath hL,
      readLinesE_eq_ok r denied sourcePath hS]
    dsimp only
    rw [findSourceLine_missing_input r luauPath sourcePath n hmiss]
  · intro hA habs
    unfold ResultRewriter.buildCodeFrameE
    rw [readLinesE_eq_ok r denied absPath hA]
    dsimp only
    rw [buildCodeFrame_missing_input r absPath line col ctx habs]
  · intro hne hden
    unfold ResultRewriter.findSourceLineE
    rw [readLinesE_eq_error r denied luauPath hne hden]
  · intro hne hden hL
    unfold ResultRewriter.findSourceLineE
    rw [readLinesE_eq_ok r denied luauPath hL,
      readLinesE_eq_error r denied sourcePath hne hden]
  · intro hne hden
    unfold ResultRewriter.buildCodeFrameE
    rw [readLinesE_eq_error r denied absPath hne hden]

/-- Witness for the amended C8: with no denied files the missing-file
inputs degrade to `.ok`, and with a concrete denied path the read
raises. -/
theorem missing_degrades_denied_raises_witness :
    scenarioRewriter.findSourceLineE [] "/proj/out/a.luau" "/proj/src/a.ts" 7
      = .ok 7
    ∧ scenarioRewriter.buildCodeFrameE [] "/proj/f.ts" 5 1 2 = .ok none
    ∧ scenarioRewriter.findSourceLineE ["/x"] "/x" "/y" 3 = .error "EACCES" := by
  refine ⟨?_, ?_, ?_⟩
  · exact (missing_degrades_denied_raises scenarioRewriter []
      "/proj/out/a.luau" "/proj/src/a.ts" "/proj/f.ts" 7 5 1 2).1
      rfl rfl (Or.inl rfl)
  · exact (missing_degrades_denied_raises scenarioRewriter []
      "/proj/out/a.luau" "/proj/src/a.ts" "/proj/f.ts" 7 5 1 2).2.1
      rfl rfl
  · exact (missing_degrades_denied_raises scenarioRewriter ["/x"]
      "/x" "/y" "/proj/f.ts" 3 5 1 2).2.2.1 (by decide) (by decide)


/-- C4: for readable compiled and source files, `findSourceLine` returns
`n` unchanged when compiled line `n`'s trimmed text is empty; else the
1-based index of the first source line whose trimmed text equals the
target; else the 1-based index of the first source line whose
whitespace-collapsed text contains the whitespace-collapsed target; else
`n`. -/
theorem findSourceLine_content_match (r : ResultRewriter)
    (luauPath sourcePath : String) (n : Nat)
    (hL : r.readLines luauPath ≠ []) (hS : r.readLines sourcePath ≠ []) :
    (compiledTarget r luauPath n = "" →
      r.findSourceLine luauPath sourcePath n = n)
    ∧ (∀ j line, compiledTarget r luauPath n ≠ "" →
        (r.readLines sourcePath).get? j = some line →
        jsTrim line = compiledTarget r luauPath n →
        (∀ k y, k < j → (r.readLines sourcePath).get? k = some y →
          jsTrim y ≠ compiledTarget r luauPath n) →
        r.findSourceLine luauPath sourcePath n = j + 1)
    ∧ (∀ j line, compiledTarget r luauPath n ≠ "" →
        (∀ y ∈ r.readLines sourcePath, jsTrim y ≠ compiledTarget r luauPath n) →
        (r.readLines sourcePath).get? j = some line →
        jsIncludes (stripSpaces line)
          (stripSpaces (compiledTarget r luauPath n)) = true →
        (∀ k y, k < j → (r.readLines sourcePath).get? k = some y →
          jsIncludes (stripSpaces y)
            (stripSpaces (compiledTarget r luauPath n)) = false) →
        r.findSourceLine luauPath sourcePath n = j + 1)
    ∧ ((∀ y ∈ r.readLines sourcePath, jsTrim y ≠ compiledTarget r luauPath n) →
        (∀ y ∈ r.readLines sourcePath,
          jsIncludes (stripSpaces y)
            (stripSpaces (compiledTarget r luauPath n)) = false) →
        r.findSourceLine luauPath sourcePath n = n) := by
  have hLe : (r.readLines luauPath).isEmpty = false := by
    simpa [List.isEmpty_iff] using hL
  have hSe : (r.readLines sourcePath).isEmpty = false := by
    simpa [List.isEmpty_iff] using hS
  simp only [compiledTarget]
  refine ⟨?_, ?_, ?_, ?_⟩
  · intro htgt
    unfold ResultRewriter.findSourceLine
    simp only [hLe, hSe, Bool.or_self, Bool.false_eq_true, if_false]
    rw [if_pos htgt]
  · intro j line htgt hj hline hmin
    unfold ResultRewriter.findSourceLine
    simp only [hLe, hSe, Bool.or_self, Bool.false_eq_true, if_false]
    rw [if_neg htgt]
    rw [findIdx?_eq_some_of_first _ (r.readLines sourcePath) j line hj
      (by simp [hline]) (fun k y hk hky => by
        simp only [decide_eq_false_iff_not]
        exact hmin k y hk hky)]
  · intro j line htgt hnone hj hline hmin
    unfold ResultRewriter.findSourceLine
    simp only [hLe, hSe, Bool.or_self, Bool.false_eq_true, if_false]
    rw [if_neg htgt]
    rw [findIdx?_eq_none_of_all _ (r.readLines sourcePath) (fun y hy => by
      simp only [decide_eq_false_iff_not]
      exact hnone y hy)]
    rw [findIdx?_eq_some_of_first _ (r.readLines sourcePath) j line hj hline hmin]
  · intro hnone1 hnone2
    unfold ResultRewriter.findSourceLine
    simp only [hLe, hSe, Bool.or_self, Bool.false_eq_true, if_false]
    by_cases htgt : jsTrim (if n = 0 then ""
        else ((r.readLines luauPath).get? (n - 1)).getD "") = ""
    · rw [if_pos htgt]
    · rw [if_neg htgt]
      rw [findIdx?_eq_none_of_all _ (r.readLines sourcePath) (fun y hy => by
        simp only [decide_eq_false_iff_not]
        exact hnone1 y hy)]
      rw [findIdx?_eq_none_of_all _ (r.readLines sourcePath) hnone2]

/-- Witness for C4 on `matchRewriter`: compiled line 1 of `/proj/out/a.luau`
matches source line 2 of `/proj/src/a.ts` exactly (the blank first source
line is skipped). -/
theorem findSourceLine_content_match_witness :
    matchRewriter.findSourceLine "/proj/out/a.luau" "/proj/src/a.ts" 1 = 2 := by
  have h := (findSourceLine_content_match matchRewriter "/proj/out/a.luau"
    "/proj/src/a.ts" 1 (by decide) (by decide)).2.1 1 "local x = 1"
    (by decide) (by decide) (by decide)
    (fun k y hk hky => by
      have hk0 : k = 0 := by omega
      subst hk0
      have : y = "" := by
        have : (matchRewriter.readLines "/proj/src/a.ts").get? 0 = some "" := by
          decide
        rw [this] at hky
        exact (Option.some.injEq _ _ ▸ hky).symm
      subst this
      decide)
  exact h

lemma foldl_mergeStep_count (g : MergeAcc α γ → Nat) (f : ShardResults α → Nat)
    (hg : ∀ (acc : MergeAcc α γ) w, g (mergeStep acc w) = g acc + shardCount f w) :
    ∀ (ws : List (WorkerResult α γ)) (acc : MergeAcc α γ),
      g (ws.foldl mergeStep acc) = g acc + (ws.map (shardCount f)).sum
  | [], acc => by simp
  | w :: ws, acc => by
    simp only [List.foldl_cons, List.map_cons, List.sum_cons,
      foldl_mergeStep_count g f hg ws, hg, Nat.add_assoc]

lemma foldl_mergeStep_success :
    ∀ (ws : List (WorkerResult α γ)) (acc : MergeAcc α γ),
      (ws.foldl mergeStep acc).allSuccess = (acc.allSuccess && ws.all shardSuccess)
  | [], acc => by simp
  | w :: ws, acc => by
    have hstep : ∀ (a : MergeAcc α γ) (w' : WorkerResult α γ),
        (mergeStep a w').allSuccess = (a.allSuccess && shardSuccess w') := by
      intro a w'
      unfold mergeStep shardSuccess
      cases w'.results <;> cases hga : a.globalConfig <;> cases w'.globalConfig <;> simp [hga]
    simp only [List.foldl_cons, List.all_cons,
      foldl_mergeStep_success ws, hstep, Bool.and_assoc]

lemma foldl_mergeStep_suites :
    ∀ (ws : List (WorkerResult α γ)) (acc : MergeAcc α γ),
      (ws.foldl mergeStep acc).combinedTestResults =
        acc.combinedTestResults ++ (ws.map shardSuites).flatten
  | [], acc => by simp
  | w :: ws, acc => by
    have hstep : ∀ (a : MergeAcc α γ) (w' : WorkerResult α γ),
        (mergeStep a w').combinedTestResults =
          a.combinedTestResults ++ shardSuites w' := by
      intro a w'
      unfold mergeStep shardSuites
      cases w'.results <;> cases hga : a.globalConfig <;> cases w'.globalConfig <;> simp [hga]
    simp only [List.foldl_cons, List.map_cons, List.flatten,
      foldl_mergeStep_suites ws, hstep, List.append_assoc]

lemma map_shardCount_of_all_some (f : ShardResults α → Nat) :
    ∀ (ws : List (WorkerResult α γ)) (shards : List (ShardResults α)),
      ws.map WorkerResult.results = shards.map some →
      ws.map (shardCount f) = shards.map f
  | [], [], _ => rfl
  | [], _ :: _, h => by simp at h
  | _ :: _, [], h => by simp at h
  | w :: ws, s :: shards, h => by
    simp only [List.map_cons, List.cons.injEq] at h
    simp only [List.map_cons, map_shardCount_of_all_some f ws shards h.2,
      shardCount, h.1]

lemma all_shardSuccess_of_all_some :
    ∀ (ws : List (WorkerResult α γ)) (shards : List (ShardResults α)),
      ws.map WorkerResult.results = shards.map some →
      ws.all shardSuccess = shards.all ShardResults.success
  | [], [], _ => rfl
  | [], _ :: _, h => by simp at h
  | _ :: _, [], h => by simp at h
  | w :: ws, s :: shards, h => by
    simp only [List.map_cons, List.cons.injEq] at h
    simp only [List.all_cons, all_shardSuccess_of_all_some ws shards h.2,
      shardSuccess, h.1]

lemma map_shardSuites_of_all_some :
    ∀ (ws : List (WorkerResult α γ)) (shards : List (ShardResults α)),
      ws.map WorkerResult.results = shards.map some →
      ws.map shardSuites = shards.map ShardResults.testResults
  | [], [], _ => rfl
  | [], _ :: _, h => by simp at h
  | _ :: _, [], h => by simp at h
  | w :: ws, s :: shards, h => by
    simp only [List.map_cons, List.cons.injEq] at h
    simp only [List.map_cons, map_shardSuites_of_all_some ws shards h.2,
      shardSuites, h.1]


/-- C1: for a parallel run whose shards all produced a `results` record, the
merged result's ten count fields are the arithmetic sums of the shards'
fields, the merged `testResults` is the concatenation of the shards'
`testResults` in worker order (no shard's contribution is dropped, even one
reporting zero tests), the merged `success` flag is the logical AND of the
shards' flags, and it is `false` iff at least one shard reported `false`. -/
theorem merge_sums_counts_and_ands_success
    {α γ : Type} (ws : List (WorkerResult α γ)) (shards : List (ShardResults α))
    (h : ws.map WorkerResult.results = shards.map some) :
    (combinedParsedResults ws).numPassedTests
        = (shards.map ShardResults.numPassedTests).sum
    ∧ (combinedParsedResults ws).numFailedTests
        = (shards.map ShardResults.numFailedTests).sum
    ∧ (combinedParsedResults ws).numPendingTests
        = (shards.map ShardResults.numPendingTests).sum
    ∧ (combinedParsedResults ws).numTodoTests
        = (shards.map ShardResults.numTodoTests).sum
    ∧ (combinedParsedResults ws).numTotalTests
        = (shards.map ShardResults.numTotalTests).sum
    ∧ (combinedParsedResults ws).numPassedTestSuites
        = (shards.map ShardResults.numPassedTestSuites).sum
    ∧ (combinedParsedResults ws).numFailedTestSuites
        = (shards.map ShardResults.numFailedTestSuites).sum
    ∧ (combinedParsedResults ws).numPendingTestSuites
        = (shards.map ShardResults.numPendingTestSuites).sum
    ∧ (combinedParsedResults ws).numRuntimeErrorTestSuites
        = (shards.map ShardResults.numRuntimeErrorTestSuites).sum
    ∧ (combinedParsedResults ws).numTotalTestSuites
        = (shards.map ShardResults.numTotalTestSuites).sum
    ∧ (combinedParsedResults ws).testResults
        = (shards.map ShardResults.testResults).flatten
    ∧ (combinedParsedResults ws).success = shards.all ShardResults.success
    ∧ ((combinedParsedResults ws).success = false
        ↔ ∃ s ∈ shards, s.success = false) := by
  have hcount : ∀ (g : MergeAcc α γ → Nat) (f : ShardResults α → Nat),
      (∀ (acc : MergeAcc α γ) w, g (mergeStep acc w) = g acc + shardCount f w) →
      g (MergeAcc.init α γ) = 0 →
      g (mergeWorkerResults ws) = (shards.map f).sum := by
    intro g f hg hg0
    rw [mergeWorkerResults, foldl_mergeStep_count g f hg,
      map_shardCount_of_all_some f ws shards h, hg0, Nat.zero_add]
  have hsucc : (mergeWorkerResults ws).allSuccess = shards.all ShardResults.success := by
    rw [mergeWorkerResults, foldl_mergeStep_success,
      show (MergeAcc.init α γ).allSuccess = true from rfl, Bool.true_and,
      all_shardSuccess_of_all_some ws shards h]
  have hsuites : (mergeWorkerResults ws).combinedTestResults =
      (shards.map ShardResults.testResults).flatten := by
    rw [mergeWorkerResults, foldl_mergeStep_suites,
      map_shardSuites_of_all_some ws shards h]
    simp [MergeAcc.init]
  have hiff : ((mergeWorkerResults ws).allSuccess = false
      ↔ ∃ s ∈ shards, s.success = false) := by
    rw [hsucc]
    simp
  simp only [combinedParsedResults]
  refine ⟨hcount _ _ ?_ rfl, hcount _ _ ?_ rfl, hcount _ _ ?_ rfl,
    hcount _ _ ?_ rfl, hcount _ _ ?_ rfl, hcount _ _ ?_ rfl, hcount _ _ ?_ rfl,
    hcount _ _ ?_ rfl, hcount _ _ ?_ rfl, hcount _ _ ?_ rfl,
    hsuites, hsucc, hiff⟩ <;>
  · intro acc w
    unfold mergeStep shardCount
    cases w.results <;> cases hga : acc.globalConfig <;> cases w.globalConfig <;> simp [hga]

/-- Witness for C1 at a concrete two-shard run: one shard with 2 passed
tests and `success = true`, one with 1 passed and 1 failed test and
`success = false`. -/
theorem merge_sums_counts_and_ands_success_witness :
    (combinedParsedResults sampleWorkers).numPassedTests = 3
    ∧ (combinedParsedResults sampleWorkers).success = false
    ∧ (combinedParsedResults sampleWorkers).testResults = [10, 11, 20] := by
  obtain ⟨h1, -, -, -, -, -, -, -, -, -, h11, h12, -⟩ :=
    merge_sums_counts_and_ands_success sampleWorkers [sampleShard1, sampleShard2] rfl
  refine ⟨?_, ?_, ?_⟩
  · rw [h1]; decide
  · rw [h12]; decide
  · rw [h11]; decide

lemma buildWorkersAux_flatten (suites : List α) (spw : Nat) (hspw : 0 < spw) :
    ∀ (fuel i : Nat), suites.length ≤ (i + fuel) * spw →
      (buildWorkersAux suites spw fuel i).flatten = suites.drop (i * spw)
  | 0, i, h => by
    have hnil : suites.drop (i * spw) = [] := by
      rw [List.drop_eq_nil_iff]
      calc suites.length ≤ (i + 0) * spw := h
        _ = i * spw := by ring
    simp [buildWorkersAux, hnil]
  | fuel + 1, i, h => by
    by_cases hempty : ((suites.drop (i * spw)).take spw).isEmpty
    · have hd : suites.drop (i * spw) = [] := by
        rcases List.take_eq_nil_iff.1 (List.isEmpty_iff.1 hempty) with h0 | h0
        · exact absurd h0 (by omega)
        · exact h0
      simp [buildWorkersAux, hempty, hd]
    · have hne : ((suites.drop (i * spw)).take spw).isEmpty = false := by
        simpa using hempty
      have hrec := buildWorkersAux_flatten suites spw hspw fuel (i + 1) (by
        calc suites.length ≤ (i + (fuel + 1)) * spw := h
          _ = (i + 1 + fuel) * spw := by ring)
      simp only [buildWorkersAux, hne, Bool.false_eq_true, if_false,
        List.flatten_cons, hrec]
      have hdd : List.drop ((i + 1) * spw) suites
          = (suites.drop (i * spw)).drop spw := by
        rw [List.drop_drop]
        congr 1
        ring
      rw [hdd, List.take_append_drop]

lemma buildWorkersAux_ne_nil (suites : List α) (spw : Nat) :
    ∀ (fuel i : Nat), ∀ s ∈ buildWorkersAux suites spw fuel i, s ≠ []
  | 0, i => by simp [buildWorkersAux]
  | fuel + 1, i => by
    by_cases hempty : ((suites.drop (i * spw)).take spw).isEmpty
    · simp [buildWorkersAux, hempty]
    · have hne : ((suites.drop (i * spw)).take spw).isEmpty = false := by
        simpa using hempty
      intro s hs
      simp only [buildWorkersAux, hne, Bool.false_eq_true, if_false,
        List.mem_cons] at hs
      rcases hs with rfl | hs
      · intro hcon
        rw [hcon] at hne
        simp at hne
      · exact buildWorkersAux_ne_nil suites spw fuel (i + 1) s hs

lemma buildWorkersAux_get? (suites : List α) (spw : Nat) :
    ∀ (fuel i j : Nat), j < (buildWorkersAux suites spw fuel i).length →
      (buildWorkersAux suites spw fuel i).get? j
        = some ((suites.drop ((i + j) * spw)).take spw)
  | 0, i, j, h => by simp [buildWorkersAux] at h
  | fuel + 1, i, j, h => by
    by_cases hempty : ((suites.drop (i * spw)).take spw).isEmpty
    · exfalso
      simp [buildWorkersAux, hempty] at h
    · have hne : ((suites.drop (i * spw)).take spw).isEmpty = false := by
        simpa using hempty
      have hcons : buildWorkersAux suites spw (fuel + 1) i
          = (suites.drop (i * spw)).take spw
            :: buildWorkersAux suites spw fuel (i + 1) := by
        simp [buildWorkersAux, hne]
      rw [hcons]
      match j with
      | 0 =>
        rw [List.get?_cons_zero, show (i + 0) * spw = i * spw from by ring]
      | j + 1 =>
        have h' : j < (buildWorkersAux suites spw fuel (i + 1)).length := by
          rw [hcons] at h
          simpa using h
        rw [List.get?_cons_succ,
          buildWorkersAux_get? suites spw fuel (i + 1) j h',
          show (i + (j + 1)) * spw = (i + 1 + j) * spw from by ring]

lemma buildWorkersAux_length_le (suites : List α) (spw : Nat) :
    ∀ (fuel i : Nat), (buildWorkersAux suites spw fuel i).length ≤ fuel
  | 0, _ => Nat.le_refl _
  | fuel + 1, i => by
    by_cases hempty : ((suites.drop (i * spw)).take spw).isEmpty
    · simp [buildWorkersAux, hempty]
    · have hne : ((suites.drop (i * spw)).take spw).isEmpty = false := by
        simpa using hempty
      simp only [buildWorkersAux, hne, Bool.false_eq_true, if_false,
        List.length_cons]
      exact Nat.succ_le_succ (buildWorkersAux_length_le suites spw fuel (i + 1))

lemma buildWorkersAux_stop (suites : List α) (spw : Nat) (hspw : 0 < spw) :
    ∀ (fuel i : Nat), (buildWorkersAux suites spw fuel i).length < fuel →
      suites.length ≤ (i + (buildWorkersAux suites spw fuel i).length) * spw
  | 0, i, h => by omega
  | fuel + 1, i, h => by
    by_cases hempty : ((suites.drop (i * spw)).take spw).isEmpty
    · have hd : suites.drop (i * spw) = [] := by
        rcases List.take_eq_nil_iff.1 (List.isEmpty_iff.1 hempty) with h0 | h0
        · exact absurd h0 (by omega)
        · exact h0
      have hlen : suites.length ≤ i * spw := by
        have := congrArg List.length hd
        simp only [List.length_drop, List.length_nil] at this
        omega
      simp only [buildWorkersAux, hempty, if_true, List.length_nil]
      calc suites.length ≤ i * spw := hlen
        _ = (i + 0) * spw := by ring
    · have hne : ((suites.drop (i * spw)).take spw).isEmpty = false := by
        simpa using hempty
      simp only [buildWorkersAux, hne, Bool.false_eq_true, if_false,
        List.length_cons] at h ⊢
      have hrec := buildWorkersAux_stop suites spw hspw fuel (i + 1) (by omega)
      calc suites.length
          ≤ (i + 1 + (buildWorkersAux suites spw fuel (i + 1)).length) * spw :=
            hrec
        _ = (i + ((buildWorkersAux suites spw fuel (i + 1)).length + 1)) * spw :=
            by ring

/-- C2: for a discovered list of `n ≥ 2` test files and `w ≥ 2` workers, the
partition built by `runJestRoblox` consists of contiguous shards of size
`suitesPerWorker = ⌈n/w⌉` in discovery order — every shard except the last
is full, the last shard holds the remainder `n - (k-1)·⌈n/w⌉`, and no shard
is empty; the concatenation of the shards is the discovered list, and
partitioning 7 files across 3 workers yields shard sizes `[3, 3, 1]`. -/
theorem buildWorkers_partition {α : Type} (suites : List α) (w : Nat)
    (hn : 2 ≤ suites.length) (hw : 2 ≤ w) :
    (buildWorkers suites w).flatten = suites
    ∧ (∀ s ∈ buildWorkers suites w, s ≠ [])
    ∧ (∀ j s, (buildWorkers suites w).get? j = some s →
        j + 1 < (buildWorkers suites w).length →
        s.length = (suites.length + w - 1) / w)
    ∧ (∀ j s, (buildWorkers suites w).get? j = some s →
        j + 1 = (buildWorkers suites w).length →
        s.length = suites.length - j * ((suites.length + w - 1) / w))
    ∧ (buildWorkers (List.range 7) 3).map List.length = [3, 3, 1] := by
  have hw0 : 0 < w := by omega
  have hdm : w * ((suites.length + w - 1) / w) + (suites.length + w - 1) % w
      = suites.length + w - 1 := Nat.div_add_mod _ _
  have hmod : (suites.length + w - 1) % w < w := Nat.mod_lt _ hw0
  have hcover : suites.length ≤ w * ((suites.length + w - 1) / w) := by omega
  have hspw0 : 0 < (suites.length + w - 1) / w := Nat.div_pos (by omega) hw0
  refine ⟨?_, ?_, ?_, ?_, by decide⟩
  · show (buildWorkersAux suites ((suites.length + w - 1) / w) w 0).flatten
      = suites
    rw [buildWorkersAux_flatten suites _ hspw0 w 0 (by
      calc suites.length ≤ w * ((suites.length + w - 1) / w) := hcover
        _ = (0 + w) * ((suites.length + w - 1) / w) := by ring)]
    simp
  · show ∀ s ∈ buildWorkersAux suites ((suites.length + w - 1) / w) w 0, s ≠ []
    exact buildWorkersAux_ne_nil suites _ w 0
  · show ∀ j s,
        (buildWorkersAux suites ((suites.length + w - 1) / w) w 0).get? j
          = some s →
        j + 1 < (buildWorkersAux suites ((suites.length + w - 1) / w) w 0).length →
        s.length = (suites.length + w - 1) / w
    intro j s hget hlast
    have hlt : j < (buildWorkersAux suites ((suites.length + w - 1) / w) w 0).length :=
      by omega
    rw [buildWorkersAux_get? suites _ w 0 j hlt] at hget
    have hs : s = (suites.drop ((0 + j) * ((suites.length + w - 1) / w))).take
        ((suites.length + w - 1) / w) := by
      exact (Option.some.injEq _ _ ▸ hget).symm
    obtain ⟨s2, hget2⟩ : ∃ s2,
        (buildWorkersAux suites ((suites.length + w - 1) / w) w 0).get? (j + 1)
          = some s2 := by
      rw [buildWorkersAux_get? suites _ w 0 (j + 1) hlast]
      exact ⟨_, rfl⟩
    have hmem : s2 ∈ buildWorkersAux suites ((suites.length + w - 1) / w) w 0 :=
      List.get?_mem hget2
    have hpos : 0 < s2.length :=
      List.length_pos.2 (buildWorkersAux_ne_nil suites _ w 0 s2 hmem)
    rw [buildWorkersAux_get? suites _ w 0 (j + 1) hlast] at hget2
    have hs2 : s2 = (suites.drop ((0 + (j + 1)) * ((suites.length + w - 1) / w))).take
        ((suites.length + w - 1) / w) :=
      (Option.some.injEq _ _ ▸ hget2).symm
    rw [hs2, List.length_take, List.length_drop] at hpos
    rw [hs, List.length_take, List.length_drop]
    have harith : (0 + (j + 1)) * ((suites.length + w - 1) / w)
        = (0 + j) * ((suites.length + w - 1) / w)
          + (suites.length + w - 1) / w := by ring
    omega
  · show ∀ j s,
        (buildWorkersAux suites ((suites.length + w - 1) / w) w 0).get? j
          = some s →
        j + 1 = (buildWorkersAux suites ((suites.length + w - 1) / w) w 0).length →
        s.length = suites.length - j * ((suites.length + w - 1) / w)
    intro j s hget hlast
    have hlt : j < (buildWorkersAux suites ((suites.length + w - 1) / w) w 0).length :=
      by omega
    rw [buildWorkersAux_get? suites _ w 0 j hlt] at hget
    have hs : s = (suites.drop ((0 + j) * ((suites.length + w - 1) / w))).take
        ((suites.length + w - 1) / w) :=
      (Option.some.injEq _ _ ▸ hget).symm
    have hbound : suites.length ≤ (j + 1) * ((suites.length + w - 1) / w) := by
      rcases Nat.lt_or_ge
          (buildWorkersAux suites ((suites.length + w - 1) / w) w 0).length w with
        hlt2 | hge
      · have hstop :=
          buildWorkersAux_stop suites ((suites.length + w - 1) / w) hspw0 w 0 hlt2
        rw [← hlast] at hstop
        calc suites.length
            ≤ (0 + (j + 1)) * ((suites.length + w - 1) / w) := hstop
          _ = (j + 1) * ((suites.length + w - 1) / w) := by ring
      · have hle := buildWorkersAux_length_le suites ((suites.length + w - 1) / w) w 0
        have hkw : (buildWorkersAux suites ((suites.length + w - 1) / w) w 0).length
            = w := by omega
        rw [hkw] at hlast
        calc suites.length ≤ w * ((suites.length + w - 1) / w) := hcover
          _ = (j + 1) * ((suites.length + w - 1) / w) := by rw [← hlast]
    rw [hs, List.length_take, List.length_drop]
    have harith1 : (j + 1) * ((suites.length + w - 1) / w)
        = j * ((suites.length + w - 1) / w) + (suites.length + w - 1) / w := by
      ring
    have harith2 : (0 + j) * ((suites.length + w - 1) / w)
        = j * ((suites.length + w - 1) / w) := by ring
    omega

/-- Witness for C2: partitioning the concrete 7-element list `0,…,6` across
3 workers reassembles to the original list with shard sizes `[3, 3, 1]`. -/
theorem buildWorkers_partition_witness :
    (buildWorkers (List.range 7) 3).flatten = List.range 7
    ∧ (buildWorkers (List.range 7) 3).map List.length = [3, 3, 1] := by
  obtain ⟨h1, -, -, -, h5⟩ :=
    buildWorkers_partition (List.range 7) 3 (by decide) (by decide)
  exact ⟨h1, h5⟩

lemma scanStackAux_eq_nil :
    ∀ (fuel : Nat) (s : List Char),
      (∀ i < s.length, tryStackMatchAt (s.drop i) = none) →
      scanStackAux fuel s = []
  | 0, s, _ => by cases s <;> rfl
  | fuel + 1, [], _ => rfl
  | fuel + 1, c :: tail, h => by
    have h0 := h 0 (by simp)
    simp only [List.drop_zero] at h0
    simp only [scanStackAux, h0]
    exact scanStackAux_eq_nil fuel tail (fun i hi => by
      have := h (i + 1) (by simpa using Nat.succ_lt_succ hi)
      simpa using this)

/-- C9: `rewriteStackString` is the identity on text in which the
path-like token pattern `<path-token>:<line>[:<column>]` matches at no
position. -/
theorem rewriteStackString_token_free_id (r : ResultRewriter) (value : String)
    (h : ∀ i < value.data.length, tryStackMatchAt (value.data.drop i) = none) :
    r.rewriteStackString value = value := by
  unfold ResultRewriter.rewriteStackString
  by_cases hv : value = ""
  · rw [if_pos hv]
  · rw [if_neg hv]
    rw [show scanStack value.data = [] from
      scanStackAux_eq_nil value.data.length value.data h]
    rfl

/-- Witness for C9: token-free text passes through unchanged. -/
theorem rewriteStackString_token_free_id_witness :
    scenarioRewriter.rewriteStackString "hello world" = "hello world" :=
  rewriteStackString_token_free_id scenarioRewriter "hello world" (by decide)

/-- C3: on the end-to-end scenario — module map entry
`{address: "A.B.test", compiledPath: "out/test.luau", sourcePath: "src/test.ts"}`
and input `"Error at A.B.test:2"` — `rewriteStackString` produces
`"Error at src/test.ts:2:1"` (the resolved column appended after the line
number), which contains `"test.ts:2"`. -/
theorem rewriteStackString_scenario :
    scenarioRewriter.rewriteStackString "Error at A.B.test:2"
      = "Error at src/test.ts:2:1"
    ∧ jsIncludes (scenarioRewriter.rewriteStackString "Error at A.B.test:2")
        "test.ts:2" = true := by
  constructor
  · decide
  · decide

lemma isPrefixOf_map_slash :
    ∀ (t l : List Char), (∀ tc ∈ t, tc ≠ '/' ∧ tc ≠ '\\') →
      t.isPrefixOf (l.map (fun c => if c = '\\' then '/' else c))
        = t.isPrefixOf l
  | [], l, _ => by cases l <;> simp [List.isPrefixOf]
  | tc :: t, [], _ => by simp [List.isPrefixOf]
  | tc :: t, c :: l, h => by
    have htc := h tc (List.mem_cons_self _ _)
    have hrec := isPrefixOf_map_slash t l
      (fun x hx => h x (List.mem_cons_of_mem _ hx))
    simp only [List.map_cons, List.isPrefixOf]
    rw [hrec]
    congr 1
    by_cases hc : c = '\\'
    · subst hc
      rw [if_pos rfl]
      have h1 : (tc == '/') = false := by
        simpa using htc.1
      have h2 : (tc == '\\') = false := by
        simpa using htc.2
      rw [h1, h2]
    · rw [if_neg hc]

lemma jsEndsWith_replaceChar_slash (p t : String)
    (ht : ∀ tc ∈ t.data, tc ≠ '/' ∧ tc ≠ '\\') :
    jsEndsWith (replaceChar p '\\' '/') t = jsEndsWith p t := by
  unfold jsEndsWith replaceChar
  show List.isSuffixOf _ _ = _
  unfold List.isSuffixOf
  have hdata : (String.mk (p.data.map
      (fun c => if c = '\\' then '/' else c))).data
      = p.data.map (fun c => if c = '\\' then '/' else c) := rfl
  rw [hdata, ← List.map_reverse]
  exact isPrefixOf_map_slash t.data.reverse p.data.reverse
    (fun x hx => ht x (List.mem_reverse.1 hx))

lemma strDropRight_replaceChar_slash (p : String) (n : Nat) :
    strDropRight (replaceChar p '\\' '/') n
      = replaceChar (strDropRight p n) '\\' '/' := by
  unfold strDropRight replaceChar
  apply congrArg String.mk
  show ((p.data.map _).take ((p.data.map _).length - n)) = _
  rw [List.length_map, ← List.map_take]

lemma stripLuaExt_replaceChar_slash (p : String) :
    stripLuaExt (replaceChar p '\\' '/') = replaceChar (stripLuaExt p) '\\' '/' := by
  unfold stripLuaExt
  rw [jsEndsWith_replaceChar_slash p ".luau" (by decide),
    jsEndsWith_replaceChar_slash p ".lua" (by decide)]
  by_cases h1 : jsEndsWith p ".luau"
  · rw [if_pos h1, if_pos h1, strDropRight_replaceChar_slash]
  · rw [if_neg h1, if_neg h1]
    by_cases h2 : jsEndsWith p ".lua"
    · rw [if_pos h2, if_pos h2, strDropRight_replaceChar_slash]
    · rw [if_neg h2, if_neg h2]

lemma suffixKey_slash_invariant (p : String) :
    suffixKey (replaceChar p '\\' '/') = suffixKey p := by
  unfold suffixKey
  rw [stripLuaExt_replaceChar_slash]
  unfold replaceChar
  apply congrArg String.mk
  show (((stripLuaExt p).data.map _).map _).map _
      = (((stripLuaExt p).data).map _).map _
  simp only [List.map_map]
  have hfun : ∀ c : Char,
      ((fun c => if c = '/' then '.' else c)
        ∘ (fun c => if c = '\\' then '.' else c)
        ∘ (fun c => if c = '\\' then '/' else c)) c
      = ((fun c => if c = '/' then '.' else c)
        ∘ (fun c => if c = '\\' then '.' else c)) c := by
    intro c
    by_cases h1 : c = '\\'
    · subst h1
      rfl
    · by_cases h2 : c = '/'
      · subst h2
        rfl
      · simp [Function.comp, h1, h2]
  rw [funext hfun]

/-- C5: when the staged exact lookup yields no entry with a truthy
`sourcePath`, `datamodelPathToSourcePath` uses the unique suffix match if
there is exactly one, falls back to joining the raw `testFilePath` under
the project root if there are zero or several, and the suffix matching is
invariant under backslash/forward-slash variance of the path. -/
theorem datamodelPathToSourcePath_suffix_resolution (r : ResultRewriter)
    (testFilePath : String) (hne : testFilePath ≠ "")
    (hexact : ∀ e, r.lookupEntry testFilePath = some e →
      e.sourcePath.getD "" = "") :
    (∀ m, r.suffixMatchesOf testFilePath = [m] →
      r.datamodelPathToSourcePath testFilePath = m)
    ∧ ((r.suffixMatchesOf testFilePath).length ≠ 1 →
      r.datamodelPathToSourcePath testFilePath
        = jsJoin r.projectRoot testFilePath)
    ∧ r.suffixMatchesOf (replaceChar testFilePath '\\' '/')
        = r.suffixMatchesOf testFilePath := by
  have hfall : r.datamodelPathToSourcePath testFilePath
      = r.suffixFallback testFilePath := by
    unfold ResultRewriter.datamodelPathToSourcePath
    rw [if_neg hne]
    cases hlook : r.lookupEntry testFilePath with
    | none => rfl
    | some e =>
      dsimp only
      cases hsp : e.sourcePath with
      | none => rfl
      | some sp =>
        have hsp0 := hexact e hlook
        rw [hsp] at hsp0
        simp only [Option.getD_some] at hsp0
        dsimp only
        rw [if_pos hsp0]
  refine ⟨?_, ?_, ?_⟩
  · intro m hm
    rw [hfall]
    unfold ResultRewriter.suffixFallback
    rw [hm]
  · intro hlen
    rw [hfall]
    unfold ResultRewriter.suffixFallback
    cases hm : r.suffixMatchesOf testFilePath with
    | nil => rfl
    | cons x t =>
      cases t with
      | nil =>
        rw [hm] at hlen
        simp at hlen
      | cons y t2 => rfl
  · unfold ResultRewriter.suffixMatchesOf
    rw [suffixKey_slash_invariant]

/-- Witness for C5: `"B.test"` has no exact entry in the scenario map, and
exactly one address (`"A.B.test"`) suffix-matches it, whose source path is
used. -/
theorem datamodelPathToSourcePath_suffix_resolution_witness :
    scenarioRewriter.datamodelPathToSourcePath "B.test" = "src/test.ts" := by
  have h := (datamodelPathToSourcePath_suffix_resolution scenarioRewriter
    "B.test" (by decide)
    (fun e he => by
      rw [show scenarioRewriter.lookupEntry "B.test" = none from by decide] at he
      exact Option.noConfusion he)).1 "src/test.ts" (by decide)
  exact h

lemma jsObjSet_of_not_mem {β : Type} :
    ∀ (m : List (String × β)) (k : String) (v : β),
      k ∉ m.map Prod.fst → jsObjSet m k v = m ++ [(k, v)]
  | [], _, _, _ => rfl
  | (k', v') :: rest, k, v, h => by
    have hne : k' ≠ k := by
      intro he
      exact h (by simp [he])
    unfold jsObjSet
    rw [if_neg hne, jsObjSet_of_not_mem rest k v (fun hm => h (by simp [hm]))]
    rfl

lemma coverageStep_eq_objSet (r : ResultRewriter)
    (out : List (String × CoverageEntry)) (kv : String × CoverageEntry) :
    r.coverageStep out kv
      = jsObjSet out (r.coverageTransform kv).1 (r.coverageTransform kv).2 := by
  unfold ResultRewriter.coverageStep ResultRewriter.coverageTransform
  by_cases h : kv.1 = "total" <;> simp [h]

lemma rewriteCoverageData_foldl (r : ResultRewriter) :
    ∀ (m out : List (String × CoverageEntry)),
      (∀ k ∈ out.map Prod.fst,
        k ∉ m.map (fun kv => (r.coverageTransform kv).1)) →
      (m.map (fun kv => (r.coverageTransform kv).1)).Nodup →
      m.foldl r.coverageStep out = out ++ m.map r.coverageTransform
  | [], out, _, _ => by simp
  | kv :: rest, out, hdisj, hnodup => by
    have hknotin : (r.coverageTransform kv).1 ∉ out.map Prod.fst := by
      intro hmem
      exact hdisj _ hmem (by simp)
    have hnodup2 := hnodup
    rw [List.map_cons] at hnodup2
    have hnodup' := List.nodup_cons.1 hnodup2
    rw [List.foldl_cons, coverageStep_eq_objSet,
      jsObjSet_of_not_mem out _ _ hknotin,
      rewriteCoverageData_foldl r rest (out ++ [r.coverageTransform kv])
        (by
          intro k hk
          rw [List.map_append, List.mem_append] at hk
          rcases hk with hk | hk
          · intro hmem
            exact hdisj k hk (by simp [hmem])
          · simp only [List.map_cons, List.map_nil, List.mem_singleton] at hk
            subst hk
            exact hnodup'.1)
        hnodup'.2]
    simp

/-- C6: under distinct output keys, `rewriteCoverageData` is exactly the
per-entry re-keying map: the `"total"` entry survives unchanged under its
own key, every other entry appears under its resolved absolute path with
that path substituted into its `path` field, the resolved key is always an
absolute path, and an entry with no module-map mapping falls back to the
absolute resolution of its original key. -/
theorem rewriteCoverageData_rekeys (r : ResultRewriter)
    (m : List (String × CoverageEntry))
    (hkeys : (m.map (fun kv => (r.coverageTransform kv).1)).Nodup) :
    r.rewriteCoverageData m = m.map r.coverageTransform
    ∧ (∀ c, ("total", c) ∈ m → ("total", c) ∈ r.rewriteCoverageData m)
    ∧ (∀ kv ∈ m, kv.1 ≠ "total" →
        (r.coverageFinalPath kv.1,
          setPathTruthy kv.2 (r.coverageFinalPath kv.1))
          ∈ r.rewriteCoverageData m)
    ∧ (∀ k : String, jsIsAbsolute (r.coverageFinalPath k) = true)
    ∧ (∀ k : String, r.modulePathMap.lookup (replaceChar k '/' '.') = none →
        r.coverageFinalPath k = jsResolve r.cwd k) := by
  have hmain : r.rewriteCoverageData m = m.map r.coverageTransform := by
    unfold ResultRewriter.rewriteCoverageData
    exact rewriteCoverageData_foldl r m [] (by simp) hkeys
  refine ⟨hmain, ?_, ?_, ?_, ?_⟩
  · intro c hc
    rw [hmain]
    have : r.coverageTransform ("total", c) = ("total", c) := by
      unfold ResultRewriter.coverageTransform
      rw [if_pos rfl]
    exact this ▸ List.mem_map_of_mem _ hc
  · intro kv hkv hne
    rw [hmain]
    have : r.coverageTransform kv
        = (r.coverageFinalPath kv.1,
          setPathTruthy kv.2 (r.coverageFinalPath kv.1)) := by
      unfold ResultRewriter.coverageTransform
      rw [if_neg hne]
    exact this ▸ List.mem_map_of_mem _ hkv
  · intro k
    rfl
  · intro k h
    simp only [ResultRewriter.coverageFinalPath]
    rw [h]
    rfl

/-- Witness for C6 on a concrete two-entry coverage map over the scenario
rewriter: the `"total"` entry is kept, the `"A/B/test"` entry is re-keyed
under the resolved compiled path with its `path` field substituted. -/
theorem rewriteCoverageData_rekeys_witness :
    scenarioRewriter.rewriteCoverageData
        [("total", ⟨some "total", 0⟩), ("A/B/test", ⟨some "old", 1⟩)]
      = [("total", ⟨some "total", 0⟩),
         ("/proj/out/test.luau", ⟨some "/proj/out/test.luau", 1⟩)] := by
  have h := (rewriteCoverageData_rekeys scenarioRewriter
    [("total", ⟨some "total", 0⟩), ("A/B/test", ⟨some "old", 1⟩)]
    (by decide)).1
  rw [h]
  decide

/-- Counterexample to C7: on a 10-line file with `line = 5` and
`contextLines = 2`, `buildCodeFrame` renders 6 lines (`5 - 2` through
`5 + 2 + 1`), not `2*contextLines + 1 = 5`. -/
theorem buildCodeFrame_line_count_counterexample :
    (frameRewriter.buildCodeFrame "/proj/f.ts" 5 1 2).map
        (fun s => (jsSplit s.data ['\n']).length) = some 6
    ∧ (6 : Nat) ≠ 2 * 2 + 1 := by
  constructor
  · decide
  · decide

lemma isPrefixOf_append_self :
    ∀ (l t : List Char), l.isPrefixOf (l ++ t) = true
  | [], t => by simp
  | c :: l, t => by
    simp [List.cons_append, List.isPrefixOf_cons₂, isPrefixOf_append_self l t]

lemma codeFrameRender_prefix (lines : List String)
    (line start digitWidth i : Nat) :
    strStartsWith (codeFrameRender lines line start digitWidth i)
      ("    " ++ (if i = line then ">" else " ") ++ " "
        ++ jsPadStart (toString i) digitWidth ' ' ++ " | ") = true := by
  simp only [codeFrameRender, chalkBoldRed, chalkGrey, chalkDim,
    highlightCode, strStartsWith, ite_self]
  have hkey : ("    " ++ ((if i = line then ">" else " ") ++ " "
        ++ (jsPadStart (toString i) digitWidth ' ' ++ " |")) ++ " "
        ++ (lines.get? (i - 1)).getD "").data
      = ("    " ++ (if i = line then ">" else " ") ++ " "
        ++ jsPadStart (toString i) digitWidth ' ' ++ " | ").data
        ++ ((lines.get? (i - 1)).getD "").data := by
    simp only [String.data_append, List.append_assoc, List.cons_append,
      List.nil_append,
      show (" | " : String).data = [' ', '|', ' '] from rfl,
      show (" |" : String).data = [' ', '|'] from rfl,
      show (" " : String).data = [' '] from rfl]
  rw [hkey]
  exact isPrefixOf_append_self _ _

lemma codeFrameRender_marker (lines : List String)
    (line start digitWidth i : Nat) :
    (strStartsWith (codeFrameRender lines line start digitWidth i)
      "    > " = true) ↔ i = line := by
  simp only [codeFrameRender, chalkBoldRed, chalkGrey, chalkDim,
    highlightCode, strStartsWith, ite_self]
  by_cases hi : i = line
  · subst hi
    rw [if_pos rfl]
    refine iff_of_true ?_ rfl
    have hkey : ("    " ++ (">" ++ " "
          ++ (jsPadStart (toString i) digitWidth ' ' ++ " |")) ++ " "
          ++ (lines.get? (i - 1)).getD "").data
        = ("    > " : String).data
          ++ ((jsPadStart (toString i) digitWidth ' ').data
            ++ (" |" ++ " " ++ (lines.get? (i - 1)).getD "").data) := by
      simp only [String.data_append, List.append_assoc, List.cons_append,
        List.nil_append,
        show ("    " : String).data = [' ', ' ', ' ', ' '] from rfl,
        show (">" : String).data = ['>'] from rfl,
        show (" " : String).data = [' '] from rfl,
        show ("    > " : String).data = [' ', ' ', ' ', ' ', '>', ' ']
          from rfl]
    rw [hkey]
    exact isPrefixOf_append_self _ _
  · rw [if_neg hi]
    refine iff_of_false ?_ hi
    intro hcon
    have hkey : ("    " ++ (" " ++ " "
          ++ (jsPadStart (toString i) digitWidth ' ' ++ " |")) ++ " "
          ++ (lines.get? (i - 1)).getD "").data
        = ' ' :: ' ' :: ' ' :: ' ' :: ' ' :: ' '
          :: ((jsPadStart (toString i) digitWidth ' ').data
            ++ (" |" ++ " " ++ (lines.get? (i - 1)).getD "").data) := by
      simp only [String.data_append, List.append_assoc, List.cons_append,
        List.nil_append,
        show ("    " : String).data = [' ', ' ', ' ', ' '] from rfl,
        show (" " : String).data = [' '] from rfl]
    rw [hkey] at hcon
    simp [List.isPrefixOf_cons₂] at hcon

/-- C7 (amended): for a readable file, with the window
`[line - contextLines, line + contextLines + 1]` inside the file,
`buildCodeFrame` renders `2*contextLines + 2` lines (not
`2*contextLines + 1`), each prefixed with its right-aligned line number,
and the `>` marker appears exactly on the target line. -/
theorem buildCodeFrameLines_spec (r : ResultRewriter) (absPath : String)
    (line context : Nat)
    (hread : r.readLines absPath ≠ [])
    (hlo : context + 1 ≤ line)
    (hhi : line + context + 1 ≤ (r.readLines absPath).length) :
    ∃ frame, r.buildCodeFrameLines absPath line context = some frame
      ∧ frame.length = 2 * context + 2
      ∧ (∀ j text, frame.get? j = some text →
          (strStartsWith text "    > " = true ↔ line - context + j = line))
      ∧ (∀ j text, frame.get? j = some text →
          strStartsWith text ("    "
            ++ (if line - context + j = line then ">" else " ") ++ " "
            ++ jsPadStart (toString (line - context + j))
                (toString (line + context + 1)).data.length ' '
            ++ " | ") = true) := by
  have hreadEmpty : (r.readLines absPath).isEmpty = false := by
    simpa [List.isEmpty_iff] using hread
  have hstart : max 1 (line - context) = line - context := by omega
  have hstop : min ((r.readLines absPath).map replaceTabs).length
      (line + context + 1) = line + context + 1 := by
    rw [List.length_map]
    omega
  have hcount : line + context + 1 + 1 - (line - context) = 2 * context + 2 := by
    omega
  have hbuild : r.buildCodeFrameLines absPath line context
      = some ((List.range' (line - context) (2 * context + 2)).map
        (codeFrameRender ((r.readLines absPath).map replaceTabs) line
          (line - context) (toString (line + context + 1)).data.length)) := by
    unfold ResultRewriter.buildCodeFrameLines
    simp only [hreadEmpty, Bool.false_eq_true, if_false, hstart, hstop, hcount]
  refine ⟨_, hbuild, ?_, ?_, ?_⟩
  · simp
  · intro j text hj
    rw [List.get?_map] at hj
    cases hr : (List.range' (line - context) (2 * context + 2)).get? j with
    | none =>
      rw [hr] at hj
      exact Option.noConfusion hj
    | some i =>
      rw [hr] at hj
      simp only [Option.map_some', Option.some.injEq] at hj
      have hlt : j < (List.range' (line - context) (2 * context + 2)).length := by
        by_contra hcon
        push_neg at hcon
        rw [List.get?_eq_none.2 (by simpa using hcon)] at hr
        exact Option.noConfusion hr
      have hgr : (List.range' (line - context) (2 * context + 2)).get? j
          = some (line - context + 1 * j) := by
        rw [List.get?_eq_getElem?]
        exact List.getElem?_range' _ _ (by simpa using hlt)
      rw [hgr] at hr
      have hi : i = line - context + j := by
        have := (Option.some.injEq _ _ ▸ hr)
        omega
      subst hj
      rw [hi]
      exact codeFrameRender_marker _ _ _ _ _
  · intro j text hj
    rw [List.get?_map] at hj
    cases hr : (List.range' (line - context) (2 * context + 2)).get? j with
    | none =>
      rw [hr] at hj
      exact Option.noConfusion hj
    | some i =>
      rw [hr] at hj
      simp only [Option.map_some', Option.some.injEq] at hj
      have hlt : j < (List.range' (line - context) (2 * context + 2)).length := by
        by_contra hcon
        push_neg at hcon
        rw [List.get?_eq_none.2 (by simpa using hcon)] at hr
        exact Option.noConfusion hr
      have hgr : (List.range' (line - context) (2 * context + 2)).get? j
          = some (line - context + 1 * j) := by
        rw [List.get?_eq_getElem?]
        exact List.getElem?_range' _ _ (by simpa using hlt)
      rw [hgr] at hr
      have hi : i = line - context + j := by
        have := (Option.some.injEq _ _ ▸ hr)
        omega
      subst hj
      rw [hi]
      exact codeFrameRender_prefix _ _ _ _ _

/-- Witness for the amended C7: on the ten-line file, `line = 5`,
`contextLines = 2` renders six lines. -/
theorem buildCodeFrameLines_spec_witness :
    (frameRewriter.buildCodeFrameLines "/proj/f.ts" 5 2).map List.length
      = some 6 := by
  obtain ⟨frame, hf, hlen, -, -⟩ := buildCodeFrameLines_spec frameRewriter
    "/proj/f.ts" 5 2 (by decide) (by decide) (by decide)
  rw [hf]
  simp [hlen]

lemma mem_jsObjSet {β : Type} :
    ∀ (m : List (String × β)) (k : String) (v : β) (kv : String × β),
      kv ∈ jsObjSet m k v → kv ∈ m ∨ kv = (k, v)
  | [], k, v, kv, h => by
    simp only [jsObjSet, List.mem_singleton] at h
    exact Or.inr h
  | (k', v') :: rest, k, v, kv, h => by
    unfold jsObjSet at h
    by_cases he : k' = k
    · rw [if_pos he] at h
      rcases List.mem_cons.1 h with h1 | h1
      · exact Or.inr h1
      · exact Or.inl (List.mem_cons_of_mem _ h1)
    · rw [if_neg he] at h
      rcases List.mem_cons.1 h with h1 | h1
      · exact Or.inl (h1 ▸ List.mem_cons_self _ _)
      · rcases mem_jsObjSet rest k v kv h1 with h2 | h2
        · exact Or.inl (List.mem_cons_of_mem _ h2)
        · exact Or.inr h2

lemma coverageStepH_preserves (r : ResultRewriter)
    (st : List CoverageEntry × List (String × Nat)) (kv : String × Nat)
    (n : Nat) (hn : n ≤ st.1.length) :
    n ≤ (r.coverageStepH st kv).1.length
    ∧ ∀ q < n, ((r.coverageStepH st kv).1).get? q = st.1.get? q := by
  unfold ResultRewriter.coverageStepH
  by_cases ht : kv.1 = "total"
  · rw [if_pos ht]
    exact ⟨hn, fun q _ => rfl⟩
  · rw [if_neg ht]
    dsimp only
    have hq1 : ∀ q < n, (st.1 ++ [(st.1.get? kv.2).getD ⟨none, 0⟩]).get? q
        = st.1.get? q := by
      intro q hq
      exact List.get?_append (by omega)
    cases hpf : ((st.1.get? kv.2).getD ⟨none, 0⟩).pathField with
    | none =>
      constructor
      · simp only [List.length_append, List.length_singleton]
        omega
      · exact hq1
    | some p =>
      dsimp only
      by_cases hp : p = ""
      · rw [if_pos hp]
        constructor
        · simp only [List.length_append, List.length_singleton]
          omega
        · exact hq1
      · rw [if_neg hp]
        constructor
        · rw [List.length_set]
          simp only [List.length_append, List.length_singleton]
          omega
        · intro q hq
          rw [List.get?_set_ne _ _ (by omega), hq1 q hq]

lemma rwH_foldl_preserves (r : ResultRewriter) :
    ∀ (m : List (String × Nat))
      (st : List CoverageEntry × List (String × Nat)) (n : Nat),
      n ≤ st.1.length →
      n ≤ (m.foldl r.coverageStepH st).1.length
      ∧ ∀ q < n, ((m.foldl r.coverageStepH st).1).get? q = st.1.get? q
  | [], st, n, hn => ⟨hn, fun _ _ => rfl⟩
  | kv :: rest, st, n, hn => by
    have hstep := coverageStepH_preserves r st kv n hn
    have hrec := rwH_foldl_preserves r rest (r.coverageStepH st kv) n hstep.1
    exact ⟨hrec.1, fun q hq => (hrec.2 q hq).trans (hstep.2 q hq)⟩

lemma coverageStepH_fresh (r : ResultRewriter)
    (st : List CoverageEntry × List (String × Nat)) (kv : String × Nat)
    (n : Nat) (hn : n ≤ st.1.length)
    (hout : ∀ kv' ∈ st.2, kv'.1 ≠ "total" → n ≤ kv'.2) :
    ∀ kv' ∈ (r.coverageStepH st kv).2, kv'.1 ≠ "total" → n ≤ kv'.2 := by
  unfold ResultRewriter.coverageStepH
  by_cases ht : kv.1 = "total"
  · rw [if_pos ht]
    intro kv' h hne
    rcases mem_jsObjSet _ _ _ _ h with h1 | h1
    · exact hout kv' h1 hne
    · exfalso
      apply hne
      rw [h1, ht]
  · rw [if_neg ht]
    dsimp only
    intro kv' h hne
    rcases mem_jsObjSet _ _ _ _ h with h1 | h1
    · exact hout kv' h1 hne
    · rw [h1]
      exact hn

lemma rwH_foldl_fresh (r : ResultRewriter) :
    ∀ (m : List (String × Nat))
      (st : List CoverageEntry × List (String × Nat)) (n : Nat),
      n ≤ st.1.length →
      (∀ kv' ∈ st.2, kv'.1 ≠ "total" → n ≤ kv'.2) →
      ∀ kv' ∈ (m.foldl r.coverageStepH st).2, kv'.1 ≠ "total" → n ≤ kv'.2
  | [], st, n, _, hout => hout
  | kv :: rest, st, n, hn, hout => by
    have hstep := coverageStepH_preserves r st kv n hn
    exact rwH_foldl_fresh r rest (r.coverageStepH st kv) n hstep.1
      (coverageStepH_fresh r st kv n hn hout)

/-- C10: in the heap model, `rewriteCoverageData` never mutates its
argument — every object cell that existed before the call is unchanged in
the resulting store (the input map and its entry objects are intact), and
every non-`"total"` entry of the returned map points at a freshly
allocated shallow clone (a reference at or past the old store end). -/
theorem rewriteCoverageDataH_no_mutation (r : ResultRewriter)
    (store : List CoverageEntry) (m : List (String × Nat)) :
    (∀ q, q < store.length →
      ((r.rewriteCoverageDataH store m).1).get? q = store.get? q)
    ∧ (∀ kv ∈ (r.rewriteCoverageDataH store m).2, kv.1 ≠ "total" →
        store.length ≤ kv.2) := by
  constructor
  · intro q hq
    exact (rwH_foldl_preserves r m (store, []) store.length (Nat.le_refl _)).2
      q hq
  · exact rwH_foldl_fresh r m (store, []) store.length (Nat.le_refl _)
      (by simp)

/-- Witness for C10: a one-cell store is untouched by rewriting a map that
references it, and the output entry points at a fresh cell. -/
theorem rewriteCoverageDataH_no_mutation_witness :
    ((scenarioRewriter.rewriteCoverageDataH [⟨some "p", 7⟩] [("a/b", 0)]).1).get? 0
      = some ⟨some "p", 7⟩ := by
  have h := (rewriteCoverageDataH_no_mutation scenarioRewriter
    [⟨some "p", 7⟩] [("a/b", 0)]).1 0 (by decide)
  rw [h]
  rfl

end JestRbx
